import Mathlib

/-!
Shallow embedding of the replay-service core
(`reverb/cc/reverb_service_impl.cc`): the insert- and sample-stream
reactors, their response queues, the local chunk map of the insert
reactor, and the service table registry.  Pure data is modelled with
`Nat`/`Int`/`String`/lists; the imperative loops become structural
recursions; fallible code returns explicit statuses.
-/

namespace Reverb

/-- gRPC status codes used by the service implementation. -/
inductive StatusCode where
  | ok
  | invalidArgument
  | notFound
  | failedPrecondition
  | internal
  deriving DecidableEq, Repr

/-- A gRPC status: a code together with a message. -/
structure GrpcStatus where
  code : StatusCode
  message : String
  deriving DecidableEq, Repr

/-- `grpc::Status::OK`. -/
def statusOK : GrpcStatus := { code := .ok, message := "" }

/-- `TableNotFound(name)` from the anonymous namespace of the service. -/
def tableNotFoundStatus (name : String) : GrpcStatus :=
  { code := .notFound, message := "Priority table " ++ name ++ " was not found" }

/-- `Internal(message)` from the anonymous namespace of the service. -/
def internalStatus (message : String) : GrpcStatus :=
  { code := .internal, message := message }

/-- A chunk payload (`ChunkData`): its 64-bit key and its serialized byte
size (`ByteSizeLong`). -/
structure ChunkData where
  chunk_key : Nat
  byteSize : Nat
  deriving DecidableEq, Repr

/-- Events a reactor step can emit towards the transport or a table:
starting a gRPC read, starting a gRPC write, or enqueueing a sample
request of a given batch size on the table. -/
inductive ReactorEvent where
  | startRead
  | startWrite
  | enqueueSample (batchSize : Int)
  deriving DecidableEq, Repr

/-! ### Insert reactor: local chunk map -/

/-- The insert reactor's local chunk map `chunks_`
(`flat_hash_map<ChunkStore::Key, shared_ptr<Chunk>>`), modelled as an
association list whose keys are kept duplicate-free by construction. -/
abbrev ChunkMap := List (Nat × ChunkData)

/-- Membership test of a key in the chunk map (`chunks_.contains(key)`). -/
def chunkMapContains (m : ChunkMap) (k : Nat) : Bool :=
  m.any (fun kv => kv.1 == k)

/-- Lookup of a key in the chunk map (`chunks_.find(key)`). -/
def chunkMapFind (m : ChunkMap) (k : Nat) : Option ChunkData :=
  (m.find? (fun kv => kv.1 == k)).map (fun kv => kv.2)

/-- `WorkerlessInsertReactor::SaveChunks`: for each incoming chunk, if its
key is not already in the local map, store it; duplicates are silently
dropped. -/
def saveChunks (m : ChunkMap) (incoming : List ChunkData) : ChunkMap :=
  incoming.foldl
    (fun acc c => if chunkMapContains acc c.chunk_key then acc else acc ++ [(c.chunk_key, c)])
    m

/-- The erase loop of `WorkerlessInsertReactor::ReleaseOutOfRangeChunks`
(source lines 296-303): erase every local chunk whose key is not in
`keep_keys`. -/
def purgedChunks (m : ChunkMap) (keepKeys : List Nat) : ChunkMap :=
  m.filter (fun kv => keepKeys.contains kv.1)

/-- `WorkerlessInsertReactor::ReleaseOutOfRangeChunks` (source lines
295-313): run the erase loop, then, if the remaining chunk count differs
from `keep_keys.size()`, fail with `FailedPrecondition`.  Returns the
purged map together with the optional error. -/
def releaseOutOfRangeChunks (m : ChunkMap) (keepKeys : List Nat) :
    ChunkMap × Option GrpcStatus :=
  if (purgedChunks m keepKeys).length = keepKeys.length then
    (purgedChunks m keepKeys, none)
  else
    (purgedChunks m keepKeys,
      some { code := .failedPrecondition,
             message := "ReleaseOutOfRangeChunks: Kept less chunks than expected." })

/-! ### Insert reactor: state and callbacks -/

/-- One buffered `InsertStreamResponse` (`InsertStreamResponseCtx`): the
list of acknowledged item keys. -/
structure InsertStreamResponseCtx where
  keys : List Nat
  deriving DecidableEq, Repr

/-- State of a `WorkerlessInsertReactor`: the local chunk map, the
in-flight flags and finished flag of the reactor skeleton, the bounded
queue of buffered ack responses, and the terminal status once finished. -/
structure InsertReactorState where
  chunks : ChunkMap
  responses_to_send : List InsertStreamResponseCtx
  read_in_flight : Bool
  write_in_flight : Bool
  is_finished : Bool
  finish_status : Option GrpcStatus
  deriving DecidableEq, Repr

/-- Apply a function to the back (most recently queued) element of a
queue, leaving everything else unchanged (`responses_to_send_.back()`). -/
def modifyBack : List α → (α → α) → List α
  | [], _ => []
  | [x], f => [f x]
  | x :: y :: xs, f => x :: modifyBack (y :: xs) f

/-- Modelled from the spec: the reactor skeleton's
`MaybeSendNextResponse` issues a write iff no write is in flight and the
response queue is non-empty; per the skeleton state machine, a finished
(`Finishing`/`Done`) reactor refuses new work. -/
def insertMaybeSendNextResponse (st : InsertReactorState) :
    InsertReactorState × List ReactorEvent :=
  if !st.is_finished && !st.write_in_flight && !st.responses_to_send.isEmpty then
    ({ st with write_in_flight := true }, [.startWrite])
  else
    (st, [])

/-- Modelled from the spec: the reactor skeleton's
`SetReactorAsFinished(status)` flips `is_finished`, drops queued
responses and records the terminal status; it is idempotent after the
first call.  (Specialised here to the insert reactor's state.) -/
def insertSetReactorAsFinished (s : GrpcStatus) (st : InsertReactorState) :
    InsertReactorState :=
  if st.is_finished then st
  else { st with is_finished := true, responses_to_send := [], finish_status := some s }

/-- The `insert_completed_` callback of `WorkerlessInsertReactor`
(source lines 182-199): under the mutex, if no read is in flight start
one; then, if the reactor is not finished, ensure a not-yet-in-flight
response exists (queue capacity 2), append the admitted `key` to the
back response, and kick off a write when the queue has exactly one
element. -/
def insertCompleted (key : Nat) (st : InsertReactorState) :
    InsertReactorState × List ReactorEvent :=
  let p1 :=
    if !st.read_in_flight then
      ({ st with read_in_flight := true }, [ReactorEvent.startRead])
    else (st, [])
  if !p1.1.is_finished then
    let rs0 :=
      if p1.1.responses_to_send.length < 2 then p1.1.responses_to_send ++ [{ keys := [] }]
      else p1.1.responses_to_send
    let rs := modifyBack rs0 (fun r => { r with keys := r.keys ++ [key] })
    let st2 := { p1.1 with responses_to_send := rs }
    if rs.length = 1 then
      let p2 := insertMaybeSendNextResponse st2
      (p2.1, p1.2 ++ p2.2)
    else (st2, p1.2)
  else (p1.1, p1.2)

/-! ### Insert reactor: processing one incoming request -/

/-- A `PrioritizedItem` as carried by an `InsertStreamRequest`: its key,
destination table name, and the chunk keys of its flat trajectory in
order (with possible repeats across columns). -/
structure PrioritizedItem where
  key : Nat
  table : String
  flat_trajectory : List Nat
  deriving DecidableEq, Repr

/-- One `InsertStreamRequest`: chunk payloads, items, and the keys of
chunks to keep after the message is processed. -/
structure InsertStreamRequest where
  chunks : List ChunkData
  items : List PrioritizedItem
  keep_chunk_keys : List Nat
  deriving DecidableEq, Repr

/-- Helper for `GetChunkKeys`: keep the first occurrence of each key,
tracking the keys already seen. -/
def dedupFirstGo (seen : List Nat) : List Nat → List Nat
  | [] => []
  | k :: ks => if k ∈ seen then dedupFirstGo seen ks else k :: dedupFirstGo (k :: seen) ks

/-- Modelled from the spec: `internal::GetChunkKeys(flat_trajectory)`
(from `trajectory_util`, outside this translation unit) lists every
chunk key appearing in the flat trajectory, each key once, in order of
first appearance. -/
def GetChunkKeys (flatTrajectory : List Nat) : List Nat :=
  dedupFirstGo [] flatTrajectory

/-- The chunk-gathering loop of
`WorkerlessInsertReactor::GetItemWithChunks` (source lines 277-293): for
each chunk key of the item's trajectory, look the key up in the local
map; the first missing key aborts with an `Internal` error naming it,
otherwise the strong chunk references are collected in trajectory
order. -/
def gatherChunks (m : ChunkMap) : List Nat → Except GrpcStatus (List ChunkData)
  | [] => .ok []
  | k :: ks =>
    match chunkMapFind m k with
    | none =>
      .error (internalStatus ("Could not find sequence chunk " ++ toString k ++ "."))
    | some c =>
      match gatherChunks m ks with
      | .error e => .error e
      | .ok cs => .ok (c :: cs)

/-- The per-item loop of
`WorkerlessInsertReactor::ProcessIncomingRequest` (source lines
233-251).  `tables name` says whether the registry resolves `name`;
`tableInsert i` is the outcome of the `i`-th `InsertOrAssignAsync` call:
either a non-OK status or the value the table wrote into `can_insert`.
Returns the first error (if any), the final value of `can_insert`, and
the keys of the items whose insert call completed. -/
def itemLoop (tables : String → Bool) (tableInsert : Nat → Except GrpcStatus Bool)
    (m : ChunkMap) :
    List PrioritizedItem → Nat → Bool → Option GrpcStatus × Bool × List Nat
  | [], _, canInsert => (none, canInsert, [])
  | it :: rest, i, canInsert =>
    match gatherChunks m (GetChunkKeys it.flat_trajectory) with
    | .error e => (some e, canInsert, [])
    | .ok _ =>
      if tables it.table then
        match tableInsert i with
        | .error s => (some s, canInsert, [])
        | .ok b =>
          let (st?, c, l) := itemLoop tables tableInsert m rest (i + 1) b
          (st?, c, it.key :: l)
      else (some (tableNotFoundStatus it.table), canInsert, [])

/-- Result of `WorkerlessInsertReactor::ProcessIncomingRequest`: the
returned status, the reactor state afterwards, the keys of items handed
to their tables, and the emitted transport events. -/
structure InsertProcessResult where
  status : GrpcStatus
  state : InsertReactorState
  submitted : List Nat
  events : List ReactorEvent
  deriving DecidableEq, Repr

/-- `WorkerlessInsertReactor::ProcessIncomingRequest` (source lines
214-263): clear `read_in_flight`; reject messages with neither chunks
nor items; save the incoming chunks; with no items resume reading at
once; otherwise run the item loop, purge out-of-range chunks, and resume
reading iff the final value of `can_insert` is true. -/
def insertProcessIncomingRequest (tables : String → Bool)
    (tableInsert : Nat → Except GrpcStatus Bool)
    (req : InsertStreamRequest) (st : InsertReactorState) : InsertProcessResult :=
  if req.chunks = [] ∧ req.items = [] then
    { status := { code := .invalidArgument,
                  message := "ProcessIncomingRequest: Request lacks both chunks and item." },
      state := { st with read_in_flight := false }, submitted := [], events := [] }
  else
    let m := saveChunks st.chunks req.chunks
    if req.items = [] then
      { status := statusOK,
        state := { st with read_in_flight := true, chunks := m },
        submitted := [], events := [.startRead] }
    else
      match itemLoop tables tableInsert m req.items 0 true with
      | (some e, _, subm) =>
        { status := e, state := { st with read_in_flight := false, chunks := m },
          submitted := subm, events := [] }
      | (none, canInsert, subm) =>
        match releaseOutOfRangeChunks m req.keep_chunk_keys with
        | (purged, some e) =>
          { status := e, state := { st with read_in_flight := false, chunks := purged },
            submitted := subm, events := [] }
        | (purged, none) =>
          if canInsert then
            { status := statusOK,
              state := { st with read_in_flight := true, chunks := purged },
              submitted := subm, events := [.startRead] }
          else
            { status := statusOK,
              state := { st with read_in_flight := false, chunks := purged },
              submitted := subm, events := [] }

/-- Oracle for a table that never rejects an `InsertOrAssignAsync` call:
the `i`-th call succeeds and writes `admits i` into `can_insert`. -/
def okOracle (admits : Nat → Bool) : Nat → Except GrpcStatus Bool :=
  fun i => .ok (admits i)

/-! ### Sample reactor: data model -/

/-- `kMaxSampleResponseSizeBytes`: if the size of a response message
exceeds this value the remaining chunks are sent with other messages. -/
def kMaxSampleResponseSizeBytes : Nat := 1 * 1024 * 1024

/-- `kMaxQueuedResponses`: maximal number of queued
`SampleStreamResponse` messages waiting to be sent to the client. -/
def kMaxQueuedResponses : Nat := 3

/-- Modelled from the spec: `Sampler::kAutoSelectValue` (declared in
`sampler.h`, outside this translation unit) is the implementation-chosen
reserved integer that requests the table's default flexible batch
size. -/
def kAutoSelectValue : Int := -1

/-- The shared `TableItem` a sampled item refers to: its stored
`PrioritizedItem` fields and the ordered strong chunk references
covering its trajectory. -/
structure TableItemRef where
  key : Nat
  table : String
  inserted_at : Nat
  flat_trajectory : List Nat
  chunks : List ChunkData
  deriving DecidableEq, Repr

/-- A `Table::SampledItem`: the shared item reference plus the sampling
metadata attached by the table.  (Numeric payloads such as priority and
probability are carried opaquely; the reactor only copies them.) -/
structure SampledItem where
  ref : TableItemRef
  priority : Int
  times_sampled : Int
  probability : Int
  table_size : Int
  rate_limited : Bool
  deriving DecidableEq, Repr

/-- The `info` block written into the first entry of a sampled item:
item key, table, priority, times-sampled, inserted-at, flat trajectory,
probability, table size and rate-limited flag. -/
structure SampleEntryInfo where
  key : Nat
  table : String
  priority : Int
  times_sampled : Int
  inserted_at : Nat
  flat_trajectory : List Nat
  probability : Int
  table_size : Int
  rate_limited : Bool
  deriving DecidableEq, Repr

/-- The info block `ProcessSample` builds from a sampled item
(source lines 636-651). -/
def infoOf (s : SampledItem) : SampleEntryInfo :=
  { key := s.ref.key
    table := s.ref.table
    priority := s.priority
    times_sampled := s.times_sampled
    inserted_at := s.ref.inserted_at
    flat_trajectory := s.ref.flat_trajectory
    probability := s.probability
    table_size := s.table_size
    rate_limited := s.rate_limited }

/-- One entry of a `SampleStreamResponse`: the optional `info` block,
the chunk payloads attached to its repeated `data` field, and the
`end_of_sequence` flag. -/
structure SampleEntry where
  info : Option SampleEntryInfo
  data : List ChunkData
  end_of_sequence : Bool
  deriving DecidableEq, Repr

/-- A fresh entry as created by `payload.add_entries()` (proto
defaults). -/
def emptyEntry : SampleEntry :=
  { info := none, data := [], end_of_sequence := false }

/-- A buffered `SampleStreamResponseCtx`: the response payload's entries
plus the strong item references held until the message is sent. -/
structure SampleStreamResponseCtx where
  entries : List SampleEntry
  table_items : List Nat
  deriving DecidableEq, Repr

/-- A fresh response context as created by
`responses_to_send_.emplace()`. -/
def emptyResponseCtx : SampleStreamResponseCtx :=
  { entries := [], table_items := [] }

/-- `SampleStreamResponseCtx::AddTableItem`. -/
def addTableItem (ref : Nat) (r : SampleStreamResponseCtx) : SampleStreamResponseCtx :=
  { r with table_items := r.table_items ++ [ref] }

/-- The part of the sample reactor state `ProcessSample` manipulates:
the queue of buffered responses and `current_response_size_bytes_`. -/
structure SampleQState where
  responses : List SampleStreamResponseCtx
  curSize : Nat
  deriving DecidableEq, Repr

/-! ### Sample reactor: ProcessSample -/

/-- The chunk loop of `WorkerlessSampleReactor::ProcessSample` (source
lines 633-665), written as a recursion over the remaining chunks.
`n` is the item's chunk count, `i` the index of the next chunk, `e` the
entry currently being filled and `sz` the accumulated response size.
Each chunk overwrites the entry's `end_of_sequence` flag, the first
chunk attaches the info block, and whenever the accumulated size
exceeds the limit before the item's last chunk, the current response is
sealed and a fresh response with a fresh entry is started.  Returns the
sealed entries (one per sealed response), the entry left in the final
response, and the final accumulated size. -/
def psEntryStep (n : Nat) (info : SampleEntryInfo) (i : Nat) (e : SampleEntry)
    (c : ChunkData) : SampleEntry :=
  { info := if i = 0 then some info else e.info
    data := e.data ++ [c]
    end_of_sequence := i + 1 = n }

/-- The chunk loop of `WorkerlessSampleReactor::ProcessSample` (source
lines 633-665), written as a recursion over the remaining chunks.
`n` is the item's chunk count, `i` the index of the next chunk, `e` the
entry currently being filled and `sz` the accumulated response size.
Each chunk overwrites the entry's `end_of_sequence` flag, the first
chunk attaches the info block (`psEntryStep`), and whenever the
accumulated size exceeds the limit before the item's last chunk, the
current response is sealed and a fresh response with a fresh entry is
started.  Returns the sealed entries (one per sealed response), the
entry left in the final response, and the final accumulated size. -/
def psGo (n : Nat) (info : SampleEntryInfo) :
    Nat → List ChunkData → SampleEntry → Nat → List SampleEntry × SampleEntry × Nat
  | _, [], e, sz => ([], e, sz)
  | i, c :: rest, e, sz =>
    if rest ≠ [] ∧ sz + c.byteSize > kMaxSampleResponseSizeBytes then
      (psEntryStep n info i e c :: (psGo n info (i + 1) rest emptyEntry 0).1,
       (psGo n info (i + 1) rest emptyEntry 0).2.1,
       (psGo n info (i + 1) rest emptyEntry 0).2.2)
    else
      psGo n info (i + 1) rest (psEntryStep n info i e c) (sz + c.byteSize)

/-- The decision at the head of `ProcessSample` (source lines 623-630):
a fresh response context is started when the queue is empty, when its
single element is already being written, or when the response being
built already exceeds the size limit. -/
def psFresh (writeInFlight : Bool) (st : SampleQState) : Bool :=
  st.responses.isEmpty || (st.responses.length == 1 && writeInFlight) ||
    decide (st.curSize > kMaxSampleResponseSizeBytes)

/-- A response holding exactly one sealed entry, as created when
`ProcessSample` starts a new response mid-item. -/
def sealedResp (e : SampleEntry) : SampleStreamResponseCtx :=
  { entries := [e], table_items := [] }

/-- Reassemble the response queue tail from the outputs of `psGo`: the
first produced entry extends the response `cur`, every other sealed
entry becomes its own response, and the item reference is attached to
the response that received the item's last chunk. -/
def assemble (cur : SampleStreamResponseCtx) (sealed : List SampleEntry)
    (lastE : SampleEntry) (ref : Nat) : List SampleStreamResponseCtx :=
  match sealed with
  | [] => [addTableItem ref { cur with entries := cur.entries ++ [lastE] }]
  | s :: ss =>
    { cur with entries := cur.entries ++ [s] } ::
      (ss.map sealedResp ++ [addTableItem ref (sealedResp lastE)])

/-- The new entries `ProcessSample` appends for one sampled item. -/
def newEntriesOf (sample : SampledItem) (writeInFlight : Bool) (st : SampleQState) :
    List SampleEntry :=
  let sz0 := if psFresh writeInFlight st then 0 else st.curSize
  let out := psGo sample.ref.chunks.length (infoOf sample) 0 sample.ref.chunks emptyEntry sz0
  out.1 ++ [out.2.1]

/-- `WorkerlessSampleReactor::ProcessSample` (source lines 621-669):
pack one sampled item into the response queue, starting fresh responses
whenever the accumulated chunk payload of the response being built has
exceeded `kMaxSampleResponseSizeBytes`. -/
def processSample (sample : SampledItem) (writeInFlight : Bool) (st : SampleQState) :
    SampleQState :=
  let fresh := psFresh writeInFlight st
  let others := if fresh then st.responses else st.responses.dropLast
  let cur := if fresh then emptyResponseCtx else st.responses.getLastD emptyResponseCtx
  let sz0 := if fresh then 0 else st.curSize
  let out := psGo sample.ref.chunks.length (infoOf sample) 0 sample.ref.chunks emptyEntry sz0
  { responses := others ++ assemble cur out.1 out.2.1 sample.ref.key,
    curSize := out.2.2 }

/-! ### Sample reactor: task info, driver loop and callbacks -/

/-- The rate-limiter timeout of a sample task: a finite number of
milliseconds or `absl::InfiniteDuration()`. -/
inductive SampleTimeout where
  | finite (ms : Int)
  | infinite
  deriving DecidableEq, Repr

/-- A table as seen by the sample reactor: its default flexible batch
size (used when the request carries the auto-select sentinel). -/
structure TableRefModel where
  defaultFlexibleBatchSize : Int
  deriving DecidableEq, Repr

/-- `SampleTaskInfo`: the resolved table, timeout, flexible batch size,
and progress counters of the current sample request. -/
structure SampleTaskInfo where
  table : Option TableRefModel
  timeout : SampleTimeout
  flexible_batch_size : Int
  fetched_samples : Int
  requested_samples : Int
  deriving DecidableEq, Repr

/-- Modelled from the spec: `SampleTaskInfo::NextSampleSize` (declared
in the service header, outside this translation unit): with
`remaining = requested_samples - fetched_samples`, return 0 when
`remaining = 0` and `min remaining flexible_batch_size` otherwise. -/
def NextSampleSize (t : SampleTaskInfo) : Int :=
  let remaining := t.requested_samples - t.fetched_samples
  if remaining = 0 then 0 else min remaining t.flexible_batch_size

/-- State of a `WorkerlessSampleReactor`: the queue/size pair handled by
`ProcessSample`, the task info, the `waiting_for_enqueued_sample` flag,
and the skeleton's in-flight and finished flags. -/
structure SampleReactorState where
  q : SampleQState
  task_info : SampleTaskInfo
  waiting_for_enqueued_sample : Bool
  read_in_flight : Bool
  write_in_flight : Bool
  is_finished : Bool
  finish_status : Option GrpcStatus
  deriving DecidableEq, Repr

/-- Modelled from the spec: the reactor skeleton's `MaybeStartRead`
begins a read if none is in flight and the reactor is not finished.
(Specialised here to the sample reactor's state.) -/
def sampleMaybeStartRead (st : SampleReactorState) :
    SampleReactorState × List ReactorEvent :=
  if !st.read_in_flight && !st.is_finished then
    ({ st with read_in_flight := true }, [.startRead])
  else (st, [])

/-- Modelled from the spec: the reactor skeleton's
`MaybeSendNextResponse` issues a write iff no write is in flight and the
response queue is non-empty; per the skeleton state machine, a finished
reactor refuses new work.  (Specialised to the sample reactor.) -/
def sampleMaybeSendNextResponse (st : SampleReactorState) :
    SampleReactorState × List ReactorEvent :=
  if !st.is_finished && !st.write_in_flight && !st.q.responses.isEmpty then
    ({ st with write_in_flight := true }, [.startWrite])
  else (st, [])

/-- Modelled from the spec: the reactor skeleton's
`SetReactorAsFinished(status)` flips `is_finished`, drops queued
responses and records the terminal status; idempotent after the first
call.  (Specialised to the sample reactor.) -/
def sampleSetReactorAsFinished (s : GrpcStatus) (st : SampleReactorState) :
    SampleReactorState :=
  if st.is_finished then st
  else { st with is_finished := true,
                 q := { st.q with responses := [] },
                 finish_status := some s }

/-- `WorkerlessSampleReactor::MaybeStartSampling` (source lines
602-619): stop when the current request is complete, when a sample
request is already in flight, or when `kMaxQueuedResponses` responses
are already buffered; otherwise mark a sample request in flight and
enqueue it on the table. -/
def maybeStartSampling (st : SampleReactorState) :
    SampleReactorState × List ReactorEvent :=
  if NextSampleSize st.task_info = 0 then (st, [])
  else if st.waiting_for_enqueued_sample then (st, [])
  else if st.q.responses.length ≥ kMaxQueuedResponses then (st, [])
  else ({ st with waiting_for_enqueued_sample := true },
        [.enqueueSample (NextSampleSize st.task_info)])

/-- A `Table::SampleRequest` as delivered to the `sampling_done_`
callback: the status of the sampling attempt and the sampled batch. -/
structure SampleBatch where
  status : GrpcStatus
  samples : List SampledItem
  deriving DecidableEq, Repr

/-- The conditional write kick of the `sampling_done_` success path
(source lines 532-534): `if (!already_writing) MaybeSendNextResponse()`. -/
def maybeKickWrite (b : Bool) (st : SampleReactorState) :
    SampleReactorState × List ReactorEvent :=
  if b then sampleMaybeSendNextResponse st else (st, [])

/-- The tail of the `sampling_done_` success path (source lines
535-542): if more samples are still owed for the current request,
re-arm sampling; otherwise resume reading. -/
def samplingDoneTail (p : SampleReactorState × List ReactorEvent) :
    SampleReactorState × List ReactorEvent :=
  if NextSampleSize p.1.task_info ≠ 0 then
    ((maybeStartSampling p.1).1, p.2 ++ (maybeStartSampling p.1).2)
  else
    ((sampleMaybeStartRead p.1).1, p.2 ++ (sampleMaybeStartRead p.1).2)

/-- The body of the `sampling_done_` success path (source lines
527-534): count the fetched samples, pack each sampled item via
`ProcessSample` (with `already_writing` fixed at entry), and kick off a
write if the queue was empty on entry. -/
def samplingDoneOk (batch : SampleBatch) (st : SampleReactorState) :
    SampleReactorState × List ReactorEvent :=
  let st1 := { st with task_info :=
    { st.task_info with fetched_samples :=
        st.task_info.fetched_samples + batch.samples.length } }
  let alreadyWriting := !st1.q.responses.isEmpty
  let st2 :=
    { st1 with q := batch.samples.foldl (fun q s => processSample s alreadyWriting q) st1.q }
  samplingDoneTail (maybeKickWrite (!alreadyWriting) st2)

/-- The `sampling_done_` callback of `WorkerlessSampleReactor` (source
lines 516-543), entry dispatch: clear `waiting_for_enqueued_sample`; a
failed sampling finishes the reactor (once); a successful one is packed
by `samplingDoneOk`. -/
def samplingDone (batch : SampleBatch) (st : SampleReactorState) :
    SampleReactorState × List ReactorEvent :=
  if batch.status.code ≠ .ok then
    if !({ st with waiting_for_enqueued_sample := false }).is_finished then
      (sampleSetReactorAsFinished batch.status
        { st with waiting_for_enqueued_sample := false }, [])
    else ({ st with waiting_for_enqueued_sample := false }, [])
  else samplingDoneOk batch { st with waiting_for_enqueued_sample := false }

/-! ### Sample reactor: processing one incoming request -/

/-- A `SampleStreamRequest`: target table, number of samples, flexible
batch size, and the optional rate-limiter timeout in milliseconds. -/
structure SampleStreamRequest where
  table : String
  num_samples : Int
  flexible_batch_size : Int
  rate_limiter_timeout : Option Int
  deriving DecidableEq, Repr

/-- `WorkerlessSampleReactor::ProcessIncomingRequest` (source lines
564-599): validate `num_samples` and `flexible_batch_size`, set the
task timeout from the optional rate-limiter timeout, resolve the table,
substitute the table's default flexible batch size for the auto-select
sentinel, reset the progress counters and start sampling. -/
def sampleProcessIncomingRequest (tables : String → Option TableRefModel)
    (req : SampleStreamRequest) (st : SampleReactorState) :
    GrpcStatus × SampleReactorState × List ReactorEvent :=
  if req.num_samples ≤ 0 then
    ({ code := .invalidArgument, message := "num_samples must be > 0." }, st, [])
  else if req.flexible_batch_size ≤ 0 ∧ req.flexible_batch_size ≠ kAutoSelectValue then
    ({ code := .invalidArgument,
       message := "flexible_batch_size must be > 0 or the auto-select value." }, st, [])
  else
    let timeout :=
      match req.rate_limiter_timeout with
      | some ms => if ms > 0 then SampleTimeout.finite ms else SampleTimeout.infinite
      | none => SampleTimeout.infinite
    let st := { st with task_info := { st.task_info with timeout := timeout } }
    match tables req.table with
    | none =>
      let st := { st with task_info := { st.task_info with table := none } }
      (tableNotFoundStatus req.table, st, [])
    | some t =>
      let fbs :=
        if req.flexible_batch_size = kAutoSelectValue then t.defaultFlexibleBatchSize
        else req.flexible_batch_size
      let st := { st with task_info :=
        { st.task_info with
            table := some t
            flexible_batch_size := fbs
            fetched_samples := 0
            requested_samples := req.num_samples } }
      let (st, evs) := maybeStartSampling st
      (statusOK, st, evs)

/-! ### Service façade: table registry -/

/-- A table as registered with the service: its name and an identifier
distinguishing distinct table objects. -/
structure TableModel where
  name : String
  id : Nat
  deriving DecidableEq, Repr

/-- The registry `tables_`, modelled as an association list from table
name to table. -/
abbrev TableRegistry := List (String × TableModel)

/-- One step of the registration loop of `ReverbServiceImpl::Initialize`
(source lines 126-129): `tables_[name] = std::move(table)` overwrites an
existing entry for `name` and otherwise appends a new one. -/
def registryInsert (m : TableRegistry) (k : String) (v : TableModel) : TableRegistry :=
  if m.any (fun kv => kv.1 == k) then
    m.map (fun kv => if kv.1 == k then (k, v) else kv)
  else m ++ [(k, v)]

/-- The registration loop of `ReverbServiceImpl::Initialize`: register
each table of the input vector under its name, in order. -/
def initTables (ts : List TableModel) : TableRegistry :=
  ts.foldl (fun m t => registryInsert m t.name t) []

/-- `ReverbServiceImpl::Initialize` without a configured checkpointer
(the only error paths of the source come from checkpoint loading):
build the registry and succeed. -/
def serviceInitNoCheckpointer (ts : List TableModel) :
    Except GrpcStatus TableRegistry :=
  .ok (initTables ts)

/-- `ReverbServiceImpl::TableByName` (source lines 692-697). -/
def TableByName (m : TableRegistry) (name : String) : Option TableModel :=
  (m.find? (fun kv => kv.1 == name)).map (fun kv => kv.2)

/-! ### Derived measures used in the statements -/

/-- Total serialized byte size of a list of chunks. -/
def dsum (l : List ChunkData) : Nat := (l.map (fun c => c.byteSize)).sum

/-- The chunk payloads of a buffered sample response, in entry order. -/
def respChunks (r : SampleStreamResponseCtx) : List ChunkData :=
  (r.entries.map (fun e => e.data)).flatten

/-- A response is within bounds when its chunk payload minus its final
chunk does not exceed `kMaxSampleResponseSizeBytes`: each chunk was
appended while the accumulated size was still at most the limit. -/
def respOk (r : SampleStreamResponseCtx) : Prop :=
  dsum (respChunks r).dropLast ≤ kMaxSampleResponseSizeBytes

/-- Invariant of the sample reactor's queue/size pair: every buffered
response satisfies `respOk`, and `current_response_size_bytes_` equals
the chunk payload of the response being built (the back of the
queue). -/
def qInv (st : SampleQState) : Prop :=
  (∀ r ∈ st.responses, respOk r) ∧
  st.curSize = dsum (respChunks (st.responses.getLastD emptyResponseCtx))

/-- All entries buffered across the response queue, in send order. -/
def allEntries (rs : List SampleStreamResponseCtx) : List SampleEntry :=
  (rs.map (fun r => r.entries)).flatten

/-! ### Concrete fixtures used by the witnesses and counterexamples -/

/-- A sampled item with two 600 KiB chunks (1 228 800 bytes total). -/
def itemTwo600KiB : SampledItem :=
  { ref := { key := 1, table := "t", inserted_at := 0, flat_trajectory := [10, 11],
             chunks := [{ chunk_key := 10, byteSize := 614400 },
                        { chunk_key := 11, byteSize := 614400 }] },
    priority := 1, times_sampled := 0, probability := 0, table_size := 1,
    rate_limited := false }

/-- A sampled item with two tiny chunks. -/
def itemTwoSmall : SampledItem :=
  { ref := { key := 3, table := "t", inserted_at := 0, flat_trajectory := [20, 21],
             chunks := [{ chunk_key := 20, byteSize := 10 },
                        { chunk_key := 21, byteSize := 10 }] },
    priority := 1, times_sampled := 0, probability := 0, table_size := 1,
    rate_limited := false }

/-- A sampled item with five 2 MiB chunks: every chunk alone exceeds the
response size limit, so packing it splits the queue four times. -/
def itemFiveBig : SampledItem :=
  { ref := { key := 2, table := "t", inserted_at := 0, flat_trajectory := [1, 2, 3, 4, 5],
             chunks := [{ chunk_key := 1, byteSize := 2097152 },
                        { chunk_key := 2, byteSize := 2097152 },
                        { chunk_key := 3, byteSize := 2097152 },
                        { chunk_key := 4, byteSize := 2097152 },
                        { chunk_key := 5, byteSize := 2097152 }] },
    priority := 1, times_sampled := 0, probability := 0, table_size := 1,
    rate_limited := false }

/-- A sample reactor that has requested one sample and is awaiting the
table's callback, with an empty response queue. -/
def sampleStLive : SampleReactorState :=
  { q := { responses := [], curSize := 0 },
    task_info := { table := some { defaultFlexibleBatchSize := 1 }, timeout := .infinite,
                   flexible_batch_size := 1, fetched_samples := 0, requested_samples := 1 },
    waiting_for_enqueued_sample := true, read_in_flight := false,
    write_in_flight := false, is_finished := false, finish_status := none }

/-- The same sample reactor after it has been finished. -/
def sampleStFinished : SampleReactorState :=
  { sampleStLive with is_finished := true }

/-- A finished insert reactor with no read in flight. -/
def insertStFinished : InsertReactorState :=
  { chunks := [], responses_to_send := [], read_in_flight := false,
    write_in_flight := false, is_finished := true, finish_status := some statusOK }

/-- An idle insert reactor at stream start. -/
def insertStLive : InsertReactorState :=
  { chunks := [], responses_to_send := [], read_in_flight := true,
    write_in_flight := false, is_finished := false, finish_status := none }

/-- Insert request used against C4: one chunk and two items, where the
first item is delayed by the table and the second admitted at once. -/
def reqTwoItems : InsertStreamRequest :=
  { chunks := [{ chunk_key := 100, byteSize := 8 }],
    items := [{ key := 50, table := "t", flat_trajectory := [100] },
              { key := 51, table := "t", flat_trajectory := [100] }],
    keep_chunk_keys := [100] }

/-- Insert request used against C9: two chunks are saved, one item is
submitted, and `keep_chunk_keys` forces a `FailedPrecondition` that
purges chunk 2. -/
def reqKeepMismatch : InsertStreamRequest :=
  { chunks := [{ chunk_key := 1, byteSize := 8 }, { chunk_key := 2, byteSize := 8 }],
    items := [{ key := 60, table := "t", flat_trajectory := [1] }],
    keep_chunk_keys := [1, 3] }

/-! ## Helper lemmas -/

theorem modifyBack_length (f : α → α) : ∀ (l : List α), (modifyBack l f).length = l.length
  | [] => rfl
  | [_] => rfl
  | x :: y :: xs => by
    simpa [modifyBack] using modifyBack_length f (y :: xs)

theorem dsum_append (a b : List ChunkData) : dsum (a ++ b) = dsum a + dsum b := by
  simp [dsum]

theorem dsum_cons (c : ChunkData) (l : List ChunkData) :
    dsum (c :: l) = c.byteSize + dsum l := by
  simp [dsum]

theorem dsum_singleton (c : ChunkData) : dsum [c] = c.byteSize := by
  simp [dsum]

theorem dsum_dropLast_le : ∀ (l : List ChunkData), dsum l.dropLast ≤ dsum l
  | [] => Nat.le_refl _
  | [c] => by simp [dsum]
  | c :: d :: l => by
    have h := dsum_dropLast_le (d :: l)
    simp only [List.dropLast_cons₂, dsum_cons] at h ⊢
    omega

theorem dsum_dropLast_append (a b : List ChunkData) :
    dsum (a ++ b).dropLast ≤ dsum a + dsum b.dropLast := by
  cases b with
  | nil =>
    simpa using le_trans (dsum_dropLast_le a) (Nat.le_add_right _ _)
  | cons x xs =>
    rw [List.dropLast_append_of_ne_nil _ (by simp), dsum_append]

theorem getLastD_concat : ∀ (l : List α) (a d : α), (l ++ [a]).getLastD d = a
  | [], _, _ => rfl
  | x :: xs, a, _ => by
    rw [List.cons_append, List.getLastD_cons]
    exact getLastD_concat xs a x

theorem releaseOutOfRangeChunks_fst (m : ChunkMap) (keep : List Nat) :
    (releaseOutOfRangeChunks m keep).1 = purgedChunks m keep := by
  unfold releaseOutOfRangeChunks
  split <;> rfl

theorem releaseOutOfRangeChunks_snd (m : ChunkMap) (keep : List Nat) :
    (releaseOutOfRangeChunks m keep).2 = none ↔
      (purgedChunks m keep).length = keep.length := by
  unfold releaseOutOfRangeChunks
  split <;> simp [*]

/-! ## Claim theorems -/

/-- C5: `ReleaseOutOfRangeChunks(keep_keys)` erases exactly the chunks
whose keys are not in `keep_keys`; it reports `FailedPrecondition` iff
the remaining chunk count differs from `keep_keys.size()`; when it
returns OK the map's key set equals the set of keys in `keep_keys`; and
duplicates in `keep_keys` always surface as `FailedPrecondition`. -/
theorem releaseOutOfRangeChunks_spec (m : ChunkMap) (keep : List Nat)
    (hnd : (m.map Prod.fst).Nodup) :
    (∀ kc : Nat × ChunkData,
        kc ∈ (releaseOutOfRangeChunks m keep).1 ↔ kc ∈ m ∧ kc.1 ∈ keep) ∧
    ((releaseOutOfRangeChunks m keep).2 = none ↔
        (releaseOutOfRangeChunks m keep).1.length = keep.length) ∧
    ((releaseOutOfRangeChunks m keep).2 = none →
        ((releaseOutOfRangeChunks m keep).1.map Prod.fst).toFinset = keep.toFinset) ∧
    (¬ keep.Nodup → (releaseOutOfRangeChunks m keep).2 ≠ none) := by
  have hmem : ∀ kc : Nat × ChunkData,
      kc ∈ (releaseOutOfRangeChunks m keep).1 ↔ kc ∈ m ∧ kc.1 ∈ keep := by
    intro kc
    rw [releaseOutOfRangeChunks_fst]
    simp [purgedChunks, List.mem_filter]
  have hkeysnd : ((releaseOutOfRangeChunks m keep).1.map Prod.fst).Nodup := by
    rw [releaseOutOfRangeChunks_fst]
    exact hnd.sublist ((List.filter_sublist (l := m)).map Prod.fst)
  have hsub : ((releaseOutOfRangeChunks m keep).1.map Prod.fst).toFinset ⊆ keep.toFinset := by
    intro x hx
    rw [List.mem_toFinset, List.mem_map] at hx
    obtain ⟨kc, hkc, rfl⟩ := hx
    rw [List.mem_toFinset]
    exact ((hmem kc).1 hkc).2
  have hset : (releaseOutOfRangeChunks m keep).2 = none →
      ((releaseOutOfRangeChunks m keep).1.map Prod.fst).toFinset = keep.toFinset := by
    intro h
    have hlen : (releaseOutOfRangeChunks m keep).1.length = keep.length := by
      rw [releaseOutOfRangeChunks_fst]
      exact (releaseOutOfRangeChunks_snd m keep).1 h
    refine Finset.eq_of_subset_of_card_le hsub ?_
    calc keep.toFinset.card ≤ keep.length := List.toFinset_card_le keep
      _ = (releaseOutOfRangeChunks m keep).1.length := hlen.symm
      _ = ((releaseOutOfRangeChunks m keep).1.map Prod.fst).length := (List.length_map _ _).symm
      _ = ((releaseOutOfRangeChunks m keep).1.map Prod.fst).toFinset.card :=
        (List.toFinset_card_of_nodup hkeysnd).symm
  refine ⟨hmem, by rw [releaseOutOfRangeChunks_fst]; exact releaseOutOfRangeChunks_snd m keep, hset, ?_⟩
  intro hdup h
  have hlen : (releaseOutOfRangeChunks m keep).1.length = keep.length := by
    rw [releaseOutOfRangeChunks_fst]
    exact (releaseOutOfRangeChunks_snd m keep).1 h
  have hcard : keep.toFinset.card = keep.length := by
    have h1 : keep.toFinset.card ≤ keep.length := List.toFinset_card_le keep
    have h2 : keep.length ≤ keep.toFinset.card := by
      calc keep.length = (releaseOutOfRangeChunks m keep).1.length := hlen.symm
        _ = ((releaseOutOfRangeChunks m keep).1.map Prod.fst).length := (List.length_map _ _).symm
        _ = ((releaseOutOfRangeChunks m keep).1.map Prod.fst).toFinset.card :=
          (List.toFinset_card_of_nodup hkeysnd).symm
        _ ≤ keep.toFinset.card := Finset.card_le_card hsub
    exact Nat.le_antisymm h1 h2
  have hdedup : keep.dedup = keep := by
    refine (List.dedup_sublist keep).eq_of_length ?_
    rw [← List.card_toFinset, hcard]
  exact hdup (hdedup ▸ List.nodup_dedup keep)

/-- Witness for C5 at a concrete map and keep list. -/
theorem releaseOutOfRangeChunks_spec_witness :
    ([(1, ChunkData.mk 1 8), (2, ChunkData.mk 2 9)].map Prod.fst).Nodup ∧
    ((1, ChunkData.mk 1 8) ∈
        (releaseOutOfRangeChunks [(1, ChunkData.mk 1 8), (2, ChunkData.mk 2 9)] [1]).1 ↔
      (1, ChunkData.mk 1 8) ∈ [(1, ChunkData.mk 1 8), (2, ChunkData.mk 2 9)] ∧ 1 ∈ [1]) := by
  refine ⟨by decide, ?_⟩
  exact (releaseOutOfRangeChunks_spec [(1, ChunkData.mk 1 8), (2, ChunkData.mk 2 9)] [1]
    (by decide)).1 (1, ChunkData.mk 1 8)

theorem find?_pred_congr {α : Type _} {p q : α → Bool} (h : ∀ a, p a = q a) :
    ∀ l : List α, l.find? p = l.find? q
  | [] => rfl
  | a :: l => by
    rw [List.find?_cons, List.find?_cons, h a, find?_pred_congr h l]

theorem find_map_overwrite (k : String) (v : TableModel) (n : String) (m : TableRegistry) :
    (m.map (fun kv => if kv.1 == k then (k, v) else kv)).find? (fun kv => kv.1 == n) =
      if n = k then (m.find? (fun kv => kv.1 == k)).map (fun _ => (k, v))
      else m.find? (fun kv => kv.1 == n) := by
  rw [List.find?_map]
  by_cases hn : n = k
  · subst hn
    rw [if_pos rfl]
    have hpc : ∀ kv : String × TableModel,
        ((fun kv : String × TableModel => kv.1 == n) ∘
          (fun kv => if kv.1 == n then (n, v) else kv)) kv = (kv.1 == n) := by
      intro kv
      by_cases h : kv.1 = n <;> simp [Function.comp, h]
    rw [find?_pred_congr hpc]
    cases hf : m.find? (fun kv => kv.1 == n) with
    | none => simp
    | some kv =>
      have hkv := List.find?_some hf
      rw [beq_iff_eq] at hkv
      simp [hkv]
  · rw [if_neg hn]
    have hpc : ∀ kv : String × TableModel,
        ((fun kv : String × TableModel => kv.1 == n) ∘
          (fun kv => if kv.1 == k then (k, v) else kv)) kv = (kv.1 == n) := by
      intro kv
      by_cases h : kv.1 = k
      · have : (k == n) = false := by simp; exact fun hkn => hn hkn.symm
        simp [Function.comp, h, this]
      · simp [Function.comp, h]
    rw [find?_pred_congr hpc]
    cases hf : m.find? (fun kv => kv.1 == n) with
    | none => simp
    | some kv =>
      have hkv := List.find?_some hf
      have hne : kv.1 ≠ k := by
        rw [beq_iff_eq] at hkv
        rw [hkv]
        exact fun h => hn h
      simp [hne]

theorem TableByName_registryInsert (m : TableRegistry) (k : String) (v : TableModel)
    (n : String) :
    TableByName (registryInsert m k v) n = if n = k then some v else TableByName m n := by
  unfold TableByName registryInsert
  by_cases hc : m.any (fun kv => kv.1 == k)
  · rw [if_pos hc, find_map_overwrite]
    by_cases hn : n = k
    · rw [if_pos hn, if_pos hn]
      have : ((m.find? (fun kv => kv.1 == k))).isSome := by
        rw [List.find?_isSome]
        exact List.any_eq_true.1 hc
      obtain ⟨kv, hkv⟩ := Option.isSome_iff_exists.1 this
      simp [hkv]
    · rw [if_neg hn, if_neg hn]
  · rw [if_neg hc, List.find?_append]
    have hnone : m.find? (fun kv => kv.1 == k) = none := by
      rw [List.find?_eq_none]
      intro x hx hxk
      exact hc (List.any_eq_true.2 ⟨x, hx, hxk⟩)
    by_cases hn : n = k
    · subst hn
      simp [hnone, List.find?_cons]
    · have h1 : (k == n) = false := by simp [Ne.symm hn]
      simp [List.find?_cons, h1, if_neg hn]

theorem TableByName_foldl (n : String) :
    ∀ (ts : List TableModel) (m : TableRegistry),
      TableByName (ts.foldl (fun acc t => registryInsert acc t.name t) m) n =
        ((ts.filter (fun t => t.name == n)).getLast?).or (TableByName m n)
  | [], m => by simp
  | t :: ts, m => by
    rw [List.foldl_cons, TableByName_foldl n ts (registryInsert m t.name t)]
    rw [TableByName_registryInsert]
    by_cases hm : t.name = n
    · have hb : (t.name == n) = true := by simp [hm]
      simp only [List.filter_cons, hb, if_true, List.getLast?_cons, if_pos hm.symm]
      cases hl : (ts.filter (fun u => u.name == n)).getLast? with
      | some u => simp [hl]
      | none => simp [hl]
    · have hb : (t.name == n) = false := by simp [hm]
      simp only [List.filter_cons, hb, Bool.false_eq_true, if_false]
      rw [if_neg (show ¬n = t.name from fun h => hm (Eq.symm h))]

theorem registryInsert_keys (m : TableRegistry) (k : String) (v : TableModel) :
    (registryInsert m k v).map Prod.fst =
      if m.any (fun kv => kv.1 == k) then m.map Prod.fst else m.map Prod.fst ++ [k] := by
  unfold registryInsert
  by_cases hc : (m.any (fun kv => kv.1 == k)) = true
  · rw [if_pos hc, if_pos hc, List.map_map]
    refine List.map_congr_left ?_
    intro a _
    by_cases hak : a.1 = k <;> simp [hak]
  · rw [if_neg hc, if_neg hc]
    simp

theorem foldl_registry_keys_nodup :
    ∀ (ts : List TableModel) (m : TableRegistry),
      (m.map Prod.fst).Nodup →
      ((ts.foldl (fun acc t => registryInsert acc t.name t) m).map Prod.fst).Nodup
  | [], _, h => h
  | t :: ts, m, h => by
    rw [List.foldl_cons]
    refine foldl_registry_keys_nodup ts _ ?_
    rw [registryInsert_keys]
    split
    · exact h
    · rename_i hc
      rw [List.nodup_append]
      refine ⟨h, List.nodup_singleton _, ?_⟩
      intro x hx hxk
      rw [List.mem_singleton] at hxk
      rw [List.mem_map] at hx
      obtain ⟨kv, hkv, hfst⟩ := hx
      refine hc (List.any_eq_true.2 ⟨kv, hkv, ?_⟩)
      simp [hfst, hxk]

/-- C10: registering the table vector in order makes the last table win
for every duplicated name: `Initialize` (without checkpointer) succeeds,
`TableByName` returns the last table of the input vector carrying the
requested name, and the registry's keys are duplicate-free, so every
registered name maps to exactly one table. -/
theorem initTables_last_wins (ts : List TableModel) (n : String) :
    serviceInitNoCheckpointer ts = .ok (initTables ts) ∧
    TableByName (initTables ts) n = (ts.filter (fun t => t.name == n)).getLast? ∧
    ((initTables ts).map Prod.fst).Nodup := by
  refine ⟨rfl, ?_, foldl_registry_keys_nodup ts [] (by simp)⟩
  rw [initTables, TableByName_foldl]
  simp [TableByName]

theorem gatherChunks_ok (m : ChunkMap) :
    ∀ (keys : List Nat), (∀ k ∈ keys, (chunkMapFind m k).isSome) →
      gatherChunks m keys =
        .ok (keys.map (fun k => (chunkMapFind m k).getD { chunk_key := 0, byteSize := 0 }))
  | [], _ => rfl
  | k :: ks, h => by
    have hk := h k (List.mem_cons_self k ks)
    obtain ⟨c, hc⟩ := Option.isSome_iff_exists.1 hk
    rw [gatherChunks, hc, gatherChunks_ok m ks (fun k hk => h k (List.mem_cons_of_mem _ hk))]
    simp [hc]

theorem gatherChunks_missing (m : ChunkMap) :
    ∀ (keys : List Nat), (∃ k ∈ keys, chunkMapFind m k = none) →
      ∃ k ∈ keys, chunkMapFind m k = none ∧
        gatherChunks m keys =
          .error (internalStatus ("Could not find sequence chunk " ++ toString k ++ "."))
  | [], h => absurd h (by simp)
  | k :: ks, h => by
    cases hk : chunkMapFind m k with
    | none =>
      refine ⟨k, List.mem_cons_self k ks, hk, ?_⟩
      rw [gatherChunks, hk]
    | some c =>
      have hks : ∃ x ∈ ks, chunkMapFind m x = none := by
        obtain ⟨x, hx, hfx⟩ := h
        rcases List.mem_cons.1 hx with rfl | hx'
        · exact absurd hfx (by simp [hk])
        · exact ⟨x, hx', hfx⟩
      obtain ⟨x, hx, hfx, herr⟩ := gatherChunks_missing m ks hks
      refine ⟨x, List.mem_cons_of_mem _ hx, hfx, ?_⟩
      rw [gatherChunks, hk, herr]

/-- C7: for every item whose flat trajectory references a chunk key that
is absent from the local chunks map, processing fails with an `Internal`
error whose message names the missing key, and the item loop aborts with
that status; when every key is present, the item is built with one
strong chunk reference per trajectory chunk key, in trajectory order. -/
theorem missing_chunk_internal_error (m : ChunkMap) (keys : List Nat) :
    ((∃ k ∈ keys, chunkMapFind m k = none) →
      ∃ k ∈ keys, chunkMapFind m k = none ∧
        gatherChunks m keys =
          .error (internalStatus ("Could not find sequence chunk " ++ toString k ++ "."))) ∧
    ((∀ k ∈ keys, (chunkMapFind m k).isSome) →
      gatherChunks m keys =
        .ok (keys.map (fun k => (chunkMapFind m k).getD { chunk_key := 0, byteSize := 0 }))) ∧
    (∀ (tables : String → Bool) (tIns : Nat → Except GrpcStatus Bool)
        (it : PrioritizedItem) (rest : List PrioritizedItem) (i : Nat) (can : Bool)
        (e : GrpcStatus),
      gatherChunks m (GetChunkKeys it.flat_trajectory) = .error e →
      itemLoop tables tIns m (it :: rest) i can = (some e, can, [])) := by
  refine ⟨gatherChunks_missing m keys, gatherChunks_ok m keys, ?_⟩
  intro tables tIns it rest i can e he
  rw [itemLoop, he]

/-- Witness for C7: chunk 2 is missing from a map holding only chunk 1. -/
theorem missing_chunk_internal_error_witness :
    ∃ k ∈ GetChunkKeys [1, 2], chunkMapFind [(1, ChunkData.mk 1 8)] k = none ∧
      gatherChunks [(1, ChunkData.mk 1 8)] (GetChunkKeys [1, 2]) =
        .error (internalStatus ("Could not find sequence chunk " ++ toString k ++ ".")) :=
  (missing_chunk_internal_error [(1, ChunkData.mk 1 8)] (GetChunkKeys [1, 2])).1
    (by decide)

theorem maybeStartSampling_task_info (st : SampleReactorState) :
    (maybeStartSampling st).1.task_info = st.task_info := by
  unfold maybeStartSampling
  split
  · rfl
  · split
    · rfl
    · split
      · rfl
      · rfl

/-- C6: `SampleStream` request validation: non-positive `num_samples` is
`InvalidArgument`; a `flexible_batch_size` that is neither positive nor
the auto-select sentinel is `InvalidArgument`; an unresolvable table
name is `NotFound`; otherwise the call succeeds and the task timeout is
finite exactly when a rate-limiter timeout with positive milliseconds is
present, and infinite otherwise. -/
theorem sample_request_validation (tables : String → Option TableRefModel)
    (req : SampleStreamRequest) (st : SampleReactorState) :
    (req.num_samples ≤ 0 →
      (sampleProcessIncomingRequest tables req st).1.code = .invalidArgument) ∧
    (req.num_samples > 0 → req.flexible_batch_size ≤ 0 →
      req.flexible_batch_size ≠ kAutoSelectValue →
      (sampleProcessIncomingRequest tables req st).1.code = .invalidArgument) ∧
    (req.num_samples > 0 →
      (req.flexible_batch_size > 0 ∨ req.flexible_batch_size = kAutoSelectValue) →
      tables req.table = none →
      (sampleProcessIncomingRequest tables req st).1.code = .notFound) ∧
    (∀ t, req.num_samples > 0 →
      (req.flexible_batch_size > 0 ∨ req.flexible_batch_size = kAutoSelectValue) →
      tables req.table = some t →
      (sampleProcessIncomingRequest tables req st).1 = statusOK ∧
      ((∃ ms, req.rate_limiter_timeout = some ms ∧ ms > 0) ↔
        (∃ d, (sampleProcessIncomingRequest tables req st).2.1.task_info.timeout =
          .finite d))) := by
  by_cases h1 : req.num_samples ≤ 0
  · refine ⟨fun _ => ?_, ?_, ?_, ?_⟩
    · simp [sampleProcessIncomingRequest, h1]
    · intro h; omega
    · intro h; omega
    · intro t h; omega
  · have h1' : ¬ req.num_samples ≤ 0 := h1
    by_cases h2 : req.flexible_batch_size ≤ 0 ∧ req.flexible_batch_size ≠ kAutoSelectValue
    · refine ⟨fun h => absurd h h1, fun _ h2a h2b => ?_, fun _ hv _ => ?_, fun t _ hv _ => ?_⟩
      · simp [sampleProcessIncomingRequest, h1', h2]
      · rcases hv with hv | hv
        · omega
        · exact absurd hv h2.2
      · rcases hv with hv | hv
        · omega
        · exact absurd hv h2.2
    · have h2' : ¬(req.flexible_batch_size ≤ 0 ∧ req.flexible_batch_size ≠ kAutoSelectValue) :=
        h2
      cases ht : tables req.table with
      | none =>
        refine ⟨fun h => absurd h h1, fun _ h2a h2b => absurd ⟨h2a, h2b⟩ h2,
          fun _ _ _ => ?_, fun t _ _ hsome => ?_⟩
        · simp [sampleProcessIncomingRequest, h1', h2', ht, tableNotFoundStatus]
        · exact absurd hsome (by simp)
      | some t0 =>
        refine ⟨fun h => absurd h h1, fun _ h2a h2b => absurd ⟨h2a, h2b⟩ h2,
          fun _ _ hnone => absurd hnone (by simp),
          fun t _ _ hsome => ?_⟩
        have ht0 : t0 = t := by injection hsome
        subst ht0
        constructor
        · simp [sampleProcessIncomingRequest, h1', h2', ht]
        · have hti : (sampleProcessIncomingRequest tables req st).2.1.task_info.timeout =
              (match req.rate_limiter_timeout with
               | some ms => if ms > 0 then SampleTimeout.finite ms else SampleTimeout.infinite
               | none => SampleTimeout.infinite) := by
            simp only [sampleProcessIncomingRequest, if_neg h1', if_neg h2', ht]
            rw [maybeStartSampling_task_info]
          rw [hti]
          cases hrt : req.rate_limiter_timeout with
          | none => simp
          | some ms =>
            by_cases hms : ms > 0
            · simp only [if_pos hms]
              constructor
              · intro _; exact ⟨ms, rfl⟩
              · intro _; exact ⟨ms, rfl, hms⟩
            · simp only [if_neg hms]
              constructor
              · intro ⟨ms2, hms2, hpos⟩
                injection hms2 with h
                omega
              · intro ⟨d, hd⟩
                exact absurd hd (by simp)

/-- Witness for C6 at a concrete valid request using the auto-select
sentinel and a 5 ms rate-limiter timeout. -/
theorem sample_request_validation_witness :
    (sampleProcessIncomingRequest (fun _ => some { defaultFlexibleBatchSize := 64 })
        { table := "t", num_samples := 2, flexible_batch_size := -1,
          rate_limiter_timeout := some 5 } sampleStLive).1 = statusOK :=
  ((sample_request_validation (fun _ => some { defaultFlexibleBatchSize := 64 })
      { table := "t", num_samples := 2, flexible_batch_size := -1,
        rate_limiter_timeout := some 5 } sampleStLive).2.2.2
    { defaultFlexibleBatchSize := 64 } (by decide) (by decide) rfl).1

theorem insertMaybeSendNextResponse_responses (st : InsertReactorState) :
    (insertMaybeSendNextResponse st).1.responses_to_send = st.responses_to_send := by
  unfold insertMaybeSendNextResponse
  split <;> rfl

theorem insertCompleted_length_le (key : Nat) (st : InsertReactorState)
    (h : st.responses_to_send.length ≤ 2) :
    (insertCompleted key st).1.responses_to_send.length ≤ 2 := by
  simp only [insertCompleted]
  split_ifs <;>
    simp_all [insertMaybeSendNextResponse_responses, modifyBack_length] <;>
    omega

/-- C1 (amended): the insert-ack queue respects its bound of 2 — the
`insert_completed_` callback only creates a response when fewer than 2
are buffered — and the sample reactor enqueues a new sampling request
only while fewer than `kMaxQueuedResponses` responses are buffered;
packing an already-delivered batch, however, is not bounded by the cap
(see the counterexample). -/
theorem reactor_queue_bounds :
    (∀ (key : Nat) (st : InsertReactorState), st.responses_to_send.length ≤ 2 →
      (insertCompleted key st).1.responses_to_send.length ≤ 2) ∧
    (∀ st : SampleReactorState, (maybeStartSampling st).2 ≠ [] →
      st.q.responses.length < kMaxQueuedResponses) := by
  constructor
  · exact insertCompleted_length_le
  · intro st h
    unfold maybeStartSampling at h
    split at h
    · exact absurd rfl h
    · split at h
      · exact absurd rfl h
      · split at h
        · exact absurd rfl h
        · rename_i h3
          omega

/-- C1 counterexample: from a reachable reactor state with an empty
response queue, a single sampling-done batch holding one item with five
2 MiB chunks leaves five buffered responses — more than
`kMaxQueuedResponses = 3`. -/
theorem sample_queue_exceeds_bound :
    sampleStLive.q.responses.length = 0 ∧
    (samplingDone { status := statusOK, samples := [itemFiveBig] }
        sampleStLive).1.q.responses.length = 5 ∧
    kMaxQueuedResponses = 3 := by
  refine ⟨rfl, ?_, rfl⟩
  decide

/-- Witness for C1 (amended): the insert bound applied at a concrete
state, and the sampling gate applied at a state that does enqueue. -/
theorem reactor_queue_bounds_witness :
    (insertCompleted 7 insertStLive).1.responses_to_send.length ≤ 2 ∧
    sampleStLive.q.responses.length < kMaxQueuedResponses := by
  constructor
  · exact reactor_queue_bounds.1 7 insertStLive (by decide)
  · refine reactor_queue_bounds.2
      { sampleStLive with waiting_for_enqueued_sample := false } ?_
    decide

theorem sampleMaybeSendNextResponse_finished (st : SampleReactorState)
    (h : st.is_finished = true) : sampleMaybeSendNextResponse st = (st, []) := by
  unfold sampleMaybeSendNextResponse
  rw [if_neg]
  simp [h]

theorem sampleMaybeStartRead_finished (st : SampleReactorState)
    (h : st.is_finished = true) : sampleMaybeStartRead st = (st, []) := by
  unfold sampleMaybeStartRead
  rw [if_neg]
  simp [h]

theorem maybeStartSampling_events (st : SampleReactorState) :
    ∀ e ∈ (maybeStartSampling st).2, e ≠ .startRead ∧ e ≠ .startWrite := by
  unfold maybeStartSampling
  split
  · simp
  · split
    · simp
    · split
      · simp
      · intro e he
        rw [List.mem_singleton] at he
        subst he
        exact ⟨by simp, by simp⟩

theorem maybeKickWrite_finished (b : Bool) (st : SampleReactorState)
    (h : st.is_finished = true) : maybeKickWrite b st = (st, []) := by
  unfold maybeKickWrite
  cases b
  · rw [if_neg (by simp)]
  · rw [if_pos rfl, sampleMaybeSendNextResponse_finished st h]

theorem samplingDoneTail_no_rw (st : SampleReactorState)
    (h : st.is_finished = true) :
    ∀ e ∈ (samplingDoneTail (st, [])).2, e ≠ .startRead ∧ e ≠ .startWrite := by
  unfold samplingDoneTail
  split
  · intro e he
    rw [List.nil_append] at he
    exact maybeStartSampling_events st e he
  · intro e he
    rw [sampleMaybeStartRead_finished st h] at he
    simp at he

theorem samplingDoneOk_no_read_write (batch : SampleBatch) (st : SampleReactorState)
    (h : st.is_finished = true) :
    ∀ e ∈ (samplingDoneOk batch st).2, e ≠ .startRead ∧ e ≠ .startWrite := by
  have hmain : ∀ (X : SampleReactorState), X.is_finished = true → ∀ (b : Bool),
      ∀ e ∈ (samplingDoneTail (maybeKickWrite b X)).2,
        e ≠ .startRead ∧ e ≠ .startWrite := by
    intro X hX b e he
    rw [maybeKickWrite_finished b X hX] at he
    exact samplingDoneTail_no_rw X hX e he
  intro e he
  simp only [samplingDoneOk] at he
  refine hmain _ ?_ _ e he
  exact h

/-- C3 (amended): `SetReactorAsFinished` keeps `is_finished` true and is
idempotent, so the flag transitions false → true at most once; after it
is true the insert-completed callback neither enqueues a response nor
starts a write — but it does start a new read whenever none is in
flight — and the sampling-done callback starts neither reads nor
writes, although its success path still packs responses into the queue
(see the counterexample). -/
theorem finish_once_and_callback_guards :
    (∀ (s : GrpcStatus) (st : InsertReactorState),
      (insertSetReactorAsFinished s st).is_finished = true ∧
      (st.is_finished = true → insertSetReactorAsFinished s st = st)) ∧
    (∀ (s : GrpcStatus) (st : SampleReactorState),
      (sampleSetReactorAsFinished s st).is_finished = true ∧
      (st.is_finished = true → sampleSetReactorAsFinished s st = st)) ∧
    (∀ (key : Nat) (st : InsertReactorState), st.is_finished = true →
      (insertCompleted key st).1.responses_to_send = st.responses_to_send ∧
      ReactorEvent.startWrite ∉ (insertCompleted key st).2 ∧
      ((insertCompleted key st).2 =
        if st.read_in_flight then [] else [ReactorEvent.startRead])) ∧
    (∀ (batch : SampleBatch) (st : SampleReactorState), st.is_finished = true →
      ReactorEvent.startRead ∉ (samplingDone batch st).2 ∧
      ReactorEvent.startWrite ∉ (samplingDone batch st).2) := by
  refine ⟨?_, ?_, ?_, ?_⟩
  · intro s st
    unfold insertSetReactorAsFinished
    by_cases h : st.is_finished <;> simp [h]
  · intro s st
    unfold sampleSetReactorAsFinished
    by_cases h : st.is_finished <;> simp [h]
  · intro key st hfin
    unfold insertCompleted
    by_cases hr : st.read_in_flight <;> simp [hr, hfin]
  · intro batch st hfin
    unfold samplingDone
    by_cases hs : batch.status.code ≠ StatusCode.ok
    · rw [if_pos hs, if_neg (by simp [hfin])]
      simp
    · rw [if_neg hs]
      constructor
      · intro hmem
        refine (samplingDoneOk_no_read_write batch _ ?_ _ hmem).1 rfl
        exact hfin
      · intro hmem
        refine (samplingDoneOk_no_read_write batch _ ?_ _ hmem).2 rfl
        exact hfin

/-- C3 counterexample: a callback firing after the reactor is finished
still takes effect — the insert-completed callback starts a read on a
finished insert reactor, and the sampling-done callback grows the
response queue of a finished sample reactor. -/
theorem callback_after_finish_example :
    insertStFinished.is_finished = true ∧
    (insertCompleted 7 insertStFinished).2 = [ReactorEvent.startRead] ∧
    sampleStFinished.is_finished = true ∧
    sampleStFinished.q.responses.length = 0 ∧
    (samplingDone { status := statusOK, samples := [itemTwoSmall] }
        sampleStFinished).1.q.responses.length = 1 := by
  refine ⟨rfl, rfl, rfl, rfl, ?_⟩
  decide

/-- Witness for C3 (amended): the guards applied on a concrete finished
insert reactor. -/
theorem finish_once_and_callback_guards_witness :
    (insertCompleted 7 insertStFinished).1.responses_to_send =
      insertStFinished.responses_to_send :=
  (finish_once_and_callback_guards.2.2.1 7 insertStFinished rfl).1

theorem gatherChunks_error_code (m : ChunkMap) :
    ∀ (keys : List Nat) (e : GrpcStatus),
      gatherChunks m keys = .error e → e.code = .internal
  | [], e, h => by simp [gatherChunks] at h
  | k :: ks, e, h => by
    rw [gatherChunks] at h
    cases hk : chunkMapFind m k with
    | none =>
      rw [hk] at h
      injection h with h
      rw [← h]
      rfl
    | some c =>
      rw [hk] at h
      cases hrec : gatherChunks m ks with
      | error e2 =>
        rw [hrec] at h
        injection h with h
        exact h ▸ gatherChunks_error_code m ks e2 hrec
      | ok cs =>
        rw [hrec] at h
        simp at h

theorem itemLoop_okOracle_error_code (tables : String → Bool) (admits : Nat → Bool)
    (m : ChunkMap) :
    ∀ (items : List PrioritizedItem) (i : Nat) (can : Bool) (e : GrpcStatus)
      (c : Bool) (l : List Nat),
      itemLoop tables (okOracle admits) m items i can = (some e, c, l) → e.code ≠ .ok
  | [], _, _, e, c, l, h => by simp [itemLoop] at h
  | it :: rest, i, can, e, c, l, h => by
    rw [itemLoop] at h
    cases hg : gatherChunks m (GetChunkKeys it.flat_trajectory) with
    | error e2 =>
      rw [hg] at h
      simp only [Prod.mk.injEq] at h
      rw [← Option.some_inj.1 h.1, gatherChunks_error_code m _ e2 hg]
      simp
    | ok cs =>
      rw [hg] at h
      by_cases ht : tables it.table
      · rw [if_pos ht] at h
        simp only [okOracle] at h
        rcases hrec : itemLoop tables (okOracle admits) m rest (i + 1) (admits i) with
          ⟨st?, c2, l2⟩
        rw [hrec] at h
        simp only [Prod.mk.injEq] at h
        obtain ⟨h1, h2, h3⟩ := h
        rw [h1] at hrec
        exact itemLoop_okOracle_error_code tables admits m rest (i + 1) (admits i) e c2 l2 hrec
      · rw [if_neg ht] at h
        simp only [Prod.mk.injEq] at h
        rw [← Option.some_inj.1 h.1]
        simp [tableNotFoundStatus]

theorem itemLoop_okOracle_last (tables : String → Bool) (admits : Nat → Bool)
    (m : ChunkMap) :
    ∀ (items : List PrioritizedItem) (i : Nat) (can : Bool) (c : Bool) (l : List Nat),
      itemLoop tables (okOracle admits) m items i can = (none, c, l) →
      items ≠ [] → c = admits (i + items.length - 1)
  | [], _, _, _, _, _, hne => absurd rfl hne
  | it :: rest, i, can, c, l, h, _ => by
    rw [itemLoop] at h
    cases hg : gatherChunks m (GetChunkKeys it.flat_trajectory) with
    | error e2 =>
      rw [hg] at h
      simp at h
    | ok cs =>
      rw [hg] at h
      by_cases ht : tables it.table
      · rw [if_pos ht] at h
        simp only [okOracle] at h
        rcases hrec : itemLoop tables (okOracle admits) m rest (i + 1) (admits i) with
          ⟨st?, c2, l2⟩
        rw [hrec] at h
        simp only [Prod.mk.injEq] at h
        obtain ⟨h1, h2, h3⟩ := h
        rw [h1] at hrec
        cases hr : rest with
        | nil =>
          subst hr
          rw [itemLoop] at hrec
          simp only [Prod.mk.injEq] at hrec
          obtain ⟨hr1, hr2, hr3⟩ := hrec
          simp only [List.length_cons, List.length_nil, Nat.zero_add, Nat.add_sub_cancel]
          rw [← h2, ← hr2]
        | cons r rs =>
          subst hr
          have hIH := itemLoop_okOracle_last tables admits m (r :: rs) (i + 1) (admits i)
            c2 l2 hrec (by simp)
          rw [← h2, hIH]
          congr 1
          simp only [List.length_cons]
          omega
      · rw [if_neg ht] at h
        simp at h

theorem insertPIR_loop_error (tables : String → Bool)
    (tIns : Nat → Except GrpcStatus Bool) (req : InsertStreamRequest)
    (st : InsertReactorState) (e : GrpcStatus) (c : Bool) (l : List Nat)
    (hne : ¬(req.chunks = [] ∧ req.items = []))
    (hitems : req.items ≠ [])
    (hloop : itemLoop tables tIns (saveChunks st.chunks req.chunks) req.items 0 true
      = (some e, c, l)) :
    insertProcessIncomingRequest tables tIns req st =
      { status := e,
        state :=
          { st with read_in_flight := false, chunks := saveChunks st.chunks req.chunks },
        submitted := l, events := [] } := by
  simp only [insertProcessIncomingRequest]
  rw [if_neg hne, if_neg hitems, hloop]

theorem insertPIR_release_error (tables : String → Bool)
    (tIns : Nat → Except GrpcStatus Bool) (req : InsertStreamRequest)
    (st : InsertReactorState) (c : Bool) (l : List Nat) (purged : ChunkMap)
    (e : GrpcStatus)
    (hne : ¬(req.chunks = [] ∧ req.items = []))
    (hitems : req.items ≠ [])
    (hloop : itemLoop tables tIns (saveChunks st.chunks req.chunks) req.items 0 true
      = (none, c, l))
    (hrel : releaseOutOfRangeChunks (saveChunks st.chunks req.chunks) req.keep_chunk_keys
      = (purged, some e)) :
    insertProcessIncomingRequest tables tIns req st =
      { status := e,
        state := { st with read_in_flight := false, chunks := purged },
        submitted := l, events := [] } := by
  simp only [insertProcessIncomingRequest]
  rw [if_neg hne, if_neg hitems, hloop, hrel]

theorem insertPIR_success (tables : String → Bool)
    (tIns : Nat → Except GrpcStatus Bool) (req : InsertStreamRequest)
    (st : InsertReactorState) (c : Bool) (l : List Nat) (purged : ChunkMap)
    (hne : ¬(req.chunks = [] ∧ req.items = []))
    (hitems : req.items ≠ [])
    (hloop : itemLoop tables tIns (saveChunks st.chunks req.chunks) req.items 0 true
      = (none, c, l))
    (hrel : releaseOutOfRangeChunks (saveChunks st.chunks req.chunks) req.keep_chunk_keys
      = (purged, none)) :
    insertProcessIncomingRequest tables tIns req st =
      (if c then
        { status := statusOK,
          state := { st with read_in_flight := true, chunks := purged },
          submitted := l, events := [.startRead] }
      else
        { status := statusOK,
          state := { st with read_in_flight := false, chunks := purged },
          submitted := l, events := [] }) := by
  simp only [insertProcessIncomingRequest]
  rw [if_neg hne, if_neg hitems, hloop, hrel]

theorem releaseOutOfRangeChunks_some_code (m : ChunkMap) (keep : List Nat)
    (purged : ChunkMap) (e : GrpcStatus)
    (h : releaseOutOfRangeChunks m keep = (purged, some e)) :
    e.code = .failedPrecondition := by
  unfold releaseOutOfRangeChunks at h
  split at h
  · simp at h
  · simp only [Prod.mk.injEq] at h
    rw [← Option.some_inj.1 h.2]

/-- C4 (amended): for every InsertStream message with items that is
processed without error, the reader is resumed iff the *last*
`InsertOrAssignAsync` call of the message set `can_insert` to true —
each call overwrites the shared flag, so earlier delayed items are
forgotten. -/
theorem resume_iff_last_admitted (tables : String → Bool) (admits : Nat → Bool)
    (req : InsertStreamRequest) (st : InsertReactorState)
    (hitems : req.items ≠ [])
    (hok : (insertProcessIncomingRequest tables (okOracle admits) req st).status = statusOK) :
    (insertProcessIncomingRequest tables (okOracle admits) req st).state.read_in_flight =
      admits (req.items.length - 1) := by
  have hne : ¬(req.chunks = [] ∧ req.items = []) := fun hc => hitems hc.2
  rcases hloop : itemLoop tables (okOracle admits)
      (saveChunks st.chunks req.chunks) req.items 0 true with ⟨st?, c2, l2⟩
  cases st? with
  | some e =>
    rw [insertPIR_loop_error tables (okOracle admits) req st e c2 l2 hne hitems hloop] at hok
    have he : e = statusOK := hok
    exact absurd (by rw [he]; rfl)
      (itemLoop_okOracle_error_code tables admits _ req.items 0 true e c2 l2 hloop)
  | none =>
    have hlast : c2 = admits (0 + req.items.length - 1) :=
      itemLoop_okOracle_last tables admits _ req.items 0 true c2 l2 hloop hitems
    rcases hrel : releaseOutOfRangeChunks
        (saveChunks st.chunks req.chunks) req.keep_chunk_keys with ⟨purged, err⟩
    cases err with
    | some e =>
      rw [insertPIR_release_error tables (okOracle admits) req st c2 l2 purged e
        hne hitems hloop hrel] at hok
      have hcode := releaseOutOfRangeChunks_some_code _ _ _ _ hrel
      have he : e = statusOK := hok
      rw [he] at hcode
      simp [statusOK] at hcode
    | none =>
      rw [insertPIR_success tables (okOracle admits) req st c2 l2 purged
        hne hitems hloop hrel]
      rw [Nat.zero_add] at hlast
      cases hcan : c2 with
      | true =>
        rw [hcan] at hlast
        rw [if_pos rfl, ← hlast]
      | false =>
        rw [hcan] at hlast
        rw [if_neg (by simp), ← hlast]

/-- C4 counterexample: the request carries two items; the table delays
the first (`can_insert` set false) and admits the second immediately
(`can_insert` set true).  The request succeeds and the reader is
resumed, although not every item of the message was admitted
immediately. -/
theorem resume_despite_delayed_item :
    (insertProcessIncomingRequest (fun _ => true) (okOracle (fun i => i == 1))
        reqTwoItems insertStLive).status = statusOK ∧
    (insertProcessIncomingRequest (fun _ => true) (okOracle (fun i => i == 1))
        reqTwoItems insertStLive).state.read_in_flight = true ∧
    ((0 : Nat) == 1) = false := by
  refine ⟨?_, ?_, rfl⟩ <;> decide

/-- Witness for C4 (amended) at the same concrete request. -/
theorem resume_iff_last_admitted_witness :
    (insertProcessIncomingRequest (fun _ => true) (okOracle (fun i => i == 1))
        reqTwoItems insertStLive).state.read_in_flight =
      (fun i : Nat => i == 1) (reqTwoItems.items.length - 1) :=
  resume_iff_last_admitted (fun _ => true) (fun i => i == 1) reqTwoItems insertStLive
    (by decide) (by decide)

theorem itemLoop_submitted_prefix (tables : String → Bool)
    (tIns : Nat → Except GrpcStatus Bool) (m : ChunkMap) :
    ∀ (items : List PrioritizedItem) (i : Nat) (can : Bool),
      (items.take (itemLoop tables tIns m items i can).2.2.length).map (fun it => it.key)
        = (itemLoop tables tIns m items i can).2.2
  | [], _, _ => rfl
  | it :: rest, i, can => by
    rw [itemLoop]
    cases hg : gatherChunks m (GetChunkKeys it.flat_trajectory) with
    | error e => simp
    | ok cs =>
      by_cases ht : tables it.table
      · rw [if_pos ht]
        cases hi : tIns i with
        | error s => simp
        | ok b =>
          rcases hrec : itemLoop tables tIns m rest (i + 1) b with ⟨st?, c2, l2⟩
          have hpre := itemLoop_submitted_prefix tables tIns m rest (i + 1) b
          rw [hrec] at hpre
          simp only [] at hpre
          simp only [hrec, List.length_cons, List.take_succ_cons, List.map_cons]
          rw [hpre]
      · rw [if_neg ht]
        simp

theorem itemLoop_none_submitted_all (tables : String → Bool)
    (tIns : Nat → Except GrpcStatus Bool) (m : ChunkMap) :
    ∀ (items : List PrioritizedItem) (i : Nat) (can : Bool) (c : Bool) (l : List Nat),
      itemLoop tables tIns m items i can = (none, c, l) →
      l = items.map (fun it => it.key)
  | [], _, _, c, l, h => by
    rw [itemLoop] at h
    simp only [Prod.mk.injEq] at h
    rw [← h.2.2]
    rfl
  | it :: rest, i, can, c, l, h => by
    rw [itemLoop] at h
    cases hg : gatherChunks m (GetChunkKeys it.flat_trajectory) with
    | error e =>
      rw [hg] at h
      simp at h
    | ok cs =>
      rw [hg] at h
      by_cases ht : tables it.table
      · rw [if_pos ht] at h
        cases hi : tIns i with
        | error s =>
          rw [hi] at h
          simp at h
        | ok b =>
          rw [hi] at h
          simp only [] at h
          rcases hrec : itemLoop tables tIns m rest (i + 1) b with ⟨st?, c2, l2⟩
          rw [hrec] at h
          simp only [Prod.mk.injEq] at h
          obtain ⟨h1, h2, h3⟩ := h
          rw [h1] at hrec
          rw [← h3, List.map_cons,
            itemLoop_none_submitted_all tables tIns m rest (i + 1) b c2 l2 hrec]
      · rw [if_neg ht] at h
        simp at h

/-- C9 (amended): failed InsertStream messages are not atomic.  When the
item loop fails (missing trajectory chunk, unknown table, or table
insert error), the stream ends with that error while every chunk saved
from the same message remains in the local map and the submitted items
are a prefix of the message's items; when the loop succeeds but the
keep-keys check fails, the stream ends with `FailedPrecondition`, every
item of the message was already submitted, and the map retains exactly
the saved chunks whose keys are listed in `keep_chunk_keys` — saved
chunks outside that list are purged. -/
theorem insert_partial_effects (tables : String → Bool)
    (tIns : Nat → Except GrpcStatus Bool) (req : InsertStreamRequest)
    (st : InsertReactorState)
    (hne : ¬(req.chunks = [] ∧ req.items = []))
    (hitems : req.items ≠ []) :
    (∀ e c l, itemLoop tables tIns (saveChunks st.chunks req.chunks) req.items 0 true
        = (some e, c, l) →
      (insertProcessIncomingRequest tables tIns req st).status = e ∧
      (insertProcessIncomingRequest tables tIns req st).state.chunks
        = saveChunks st.chunks req.chunks ∧
      (insertProcessIncomingRequest tables tIns req st).submitted = l ∧
      (req.items.take l.length).map (fun it => it.key) = l) ∧
    (∀ c l, itemLoop tables tIns (saveChunks st.chunks req.chunks) req.items 0 true
        = (none, c, l) →
      l = req.items.map (fun it => it.key) ∧
      ∀ purged e,
        releaseOutOfRangeChunks (saveChunks st.chunks req.chunks) req.keep_chunk_keys
          = (purged, some e) →
        (insertProcessIncomingRequest tables tIns req st).status.code
          = .failedPrecondition ∧
        (insertProcessIncomingRequest tables tIns req st).state.chunks
          = purgedChunks (saveChunks st.chunks req.chunks) req.keep_chunk_keys ∧
        (insertProcessIncomingRequest tables tIns req st).submitted = l) := by
  constructor
  · intro e c l hloop
    rw [insertPIR_loop_error tables tIns req st e c l hne hitems hloop]
    refine ⟨rfl, rfl, rfl, ?_⟩
    have hpre := itemLoop_submitted_prefix tables tIns
      (saveChunks st.chunks req.chunks) req.items 0 true
    rw [hloop] at hpre
    exact hpre
  · intro c l hloop
    refine ⟨itemLoop_none_submitted_all tables tIns _ req.items 0 true c l hloop, ?_⟩
    intro purged e hrel
    rw [insertPIR_release_error tables tIns req st c l purged e hne hitems hloop hrel]
    refine ⟨releaseOutOfRangeChunks_some_code _ _ _ _ hrel, ?_, rfl⟩
    have hfst := congrArg Prod.fst hrel
    rw [releaseOutOfRangeChunks_fst] at hfst
    exact hfst.symm

/-- C9 counterexample: after the keep-keys `FailedPrecondition`, chunk 2
— saved from this very message — has been purged from the local chunks
map, so saved chunks do not all survive a failed message. -/
theorem failed_precondition_drops_saved_chunks :
    (insertProcessIncomingRequest (fun _ => true) (okOracle (fun _ => true))
        reqKeepMismatch insertStLive).status.code = .failedPrecondition ∧
    chunkMapContains (saveChunks insertStLive.chunks reqKeepMismatch.chunks) 2 = true ∧
    chunkMapContains (insertProcessIncomingRequest (fun _ => true) (okOracle (fun _ => true))
        reqKeepMismatch insertStLive).state.chunks 2 = false ∧
    (insertProcessIncomingRequest (fun _ => true) (okOracle (fun _ => true))
        reqKeepMismatch insertStLive).submitted = [60] := by
  refine ⟨?_, ?_, ?_, ?_⟩ <;> decide

/-- Witness for C9 (amended) at the concrete keep-mismatch request. -/
theorem insert_partial_effects_witness :
    [60] = reqKeepMismatch.items.map (fun it => it.key) :=
  (((insert_partial_effects (fun _ => true) (okOracle (fun _ => true)) reqKeepMismatch
      insertStLive (by decide) (by decide)).2) true [60] (by decide)).1

/-- C2 counterexample: an item with two 600 KiB chunks is packed into a
single response holding 1 228 800 bytes of chunk payload — over the
1 MiB limit — although no single chunk exceeds the limit (and the
response holds two chunks, not one). -/
theorem sampleResponse_exceeds_one_MiB :
    ((processSample itemTwo600KiB false { responses := [], curSize := 0 }).responses.map
      (fun r => dsum (respChunks r))) = [1228800] ∧
    ((processSample itemTwo600KiB false { responses := [], curSize := 0 }).responses.map
      (fun r => (respChunks r).map (fun c => c.byteSize))) = [[614400, 614400]] ∧
    1228800 > kMaxSampleResponseSizeBytes ∧
    614400 ≤ kMaxSampleResponseSizeBytes := by
  refine ⟨?_, ?_, ?_, ?_⟩ <;> decide

/-- C8 counterexample: packing an item with two small chunks produces a
single entry whose repeated `data` field carries both chunk payloads —
an entry does not carry exactly one chunk payload. -/
theorem entry_with_multiple_chunks :
    ((processSample itemTwoSmall false { responses := [], curSize := 0 }).responses.map
      (fun r => r.entries.map (fun e => e.data.length))) = [[2]] := by
  decide

theorem psGo_chunks (n : Nat) (info : SampleEntryInfo) :
    ∀ (rem : List ChunkData) (i : Nat) (e : SampleEntry) (sz : Nat),
      ((psGo n info i rem e sz).1.map (fun t => t.data)).flatten
          ++ (psGo n info i rem e sz).2.1.data
        = e.data ++ rem
  | [], i, e, sz => by simp [psGo]
  | c :: rest, i, e, sz => by
    rw [psGo]
    by_cases hsplit : rest ≠ [] ∧ sz + c.byteSize > kMaxSampleResponseSizeBytes
    · rw [if_pos hsplit]
      have ih := psGo_chunks n info rest (i + 1) emptyEntry 0
      simp only [List.map_cons, List.flatten_cons, List.append_assoc, ih]
      simp [psEntryStep, emptyEntry]
    · rw [if_neg hsplit]
      have ih := psGo_chunks n info rest (i + 1) (psEntryStep n info i e c) (sz + c.byteSize)
      rw [ih]
      simp [psEntryStep]

theorem headD_or_tail {α : Type _} (l : List α) (d : α) (t : α) (ht : t ∈ l) :
    t = l.headD d ∨ t ∈ l.tail := by
  cases l with
  | nil => simp at ht
  | cons a l' =>
    rcases List.mem_cons.1 ht with h | h
    · exact Or.inl h
    · exact Or.inr h

theorem psGo_info (n : Nat) (info : SampleEntryInfo) :
    ∀ (rem : List ChunkData) (i : Nat) (e : SampleEntry) (sz : Nat),
      (((psGo n info i rem e sz).1 ++ [(psGo n info i rem e sz).2.1]).headD
          emptyEntry).info
        = (if i = 0 ∧ rem ≠ [] then some info else e.info) ∧
      (∀ t ∈ ((psGo n info i rem e sz).1 ++ [(psGo n info i rem e sz).2.1]).tail,
        t.info = none)
  | [], i, e, sz => by simp [psGo]
  | c :: rest, i, e, sz => by
    rw [psGo]
    by_cases hsplit : rest ≠ [] ∧ sz + c.byteSize > kMaxSampleResponseSizeBytes
    · rw [if_pos hsplit]
      have ih := psGo_info n info rest (i + 1) emptyEntry 0
      constructor
      · by_cases hi : i = 0 <;> simp [psEntryStep, hi]
      · intro t htmem
        simp only [List.cons_append, List.tail_cons] at htmem
        rcases headD_or_tail _ emptyEntry t htmem with h | h
        · rw [h, ih.1]
          rw [if_neg (by simp)]
          rfl
        · exact ih.2 t h
    · rw [if_neg hsplit]
      have ih := psGo_info n info rest (i + 1) (psEntryStep n info i e c) (sz + c.byteSize)
      constructor
      · rw [ih.1]
        rw [if_neg (by simp)]
        by_cases hi : i = 0 <;> simp [psEntryStep, hi]
      · exact ih.2

theorem psGo_eos (n : Nat) (info : SampleEntryInfo) :
    ∀ (rem : List ChunkData) (i : Nat) (e : SampleEntry) (sz : Nat),
      i + rem.length = n →
      (∀ t ∈ (psGo n info i rem e sz).1, t.end_of_sequence = false) ∧
      (rem ≠ [] → (psGo n info i rem e sz).2.1.end_of_sequence = true) ∧
      (rem = [] → (psGo n info i rem e sz).2.1 = e)
  | [], i, e, sz, _ => by simp [psGo]
  | c :: rest, i, e, sz, hn => by
    rw [psGo]
    by_cases hsplit : rest ≠ [] ∧ sz + c.byteSize > kMaxSampleResponseSizeBytes
    · rw [if_pos hsplit]
      have hlen : rest.length ≥ 1 := by
        cases hre : rest with
        | nil => exact absurd hre hsplit.1
        | cons x xs => simp
      have ih := psGo_eos n info rest (i + 1) emptyEntry 0
        (by rw [← hn]; simp [List.length_cons]; omega)
      refine ⟨?_, fun _ => ih.2.1 hsplit.1, fun hc => by simp at hc⟩
      intro t htmem
      rcases List.mem_cons.1 htmem with h | h
      · rw [h]
        show decide (i + 1 = n) = false
        rw [decide_eq_false]
        rw [← hn]
        simp only [List.length_cons]
        omega
      · exact ih.1 t h
    · rw [if_neg hsplit]
      cases hre : rest with
      | nil =>
        subst hre
        rw [psGo]
        refine ⟨by simp, fun _ => ?_, fun hc => by simp at hc⟩
        show decide (i + 1 = n) = true
        rw [decide_eq_true]
        rw [← hn]
        simp
      | cons x xs =>
        subst hre
        have ih := psGo_eos n info (x :: xs) (i + 1) (psEntryStep n info i e c)
          (sz + c.byteSize) (by rw [← hn]; simp [List.length_cons]; omega)
        refine ⟨ih.1, fun _ => ih.2.1 (by simp), fun hc => by simp at hc⟩

theorem psGo_sizes (n : Nat) (info : SampleEntryInfo) :
    ∀ (rem : List ChunkData) (i : Nat) (e : SampleEntry) (sz p : Nat)
      (sealed : List SampleEntry) (lastE : SampleEntry) (szEnd : Nat),
      sz ≤ kMaxSampleResponseSizeBytes → sz = p + dsum e.data →
      psGo n info i rem e sz = (sealed, lastE, szEnd) →
      (sealed = [] → szEnd = p + dsum lastE.data ∧
        p + dsum lastE.data.dropLast ≤ kMaxSampleResponseSizeBytes) ∧
      (∀ s ss, sealed = s :: ss →
        p + dsum s.data.dropLast ≤ kMaxSampleResponseSizeBytes ∧
        (∀ t ∈ ss, dsum t.data.dropLast ≤ kMaxSampleResponseSizeBytes) ∧
        szEnd = dsum lastE.data ∧
        dsum lastE.data.dropLast ≤ kMaxSampleResponseSizeBytes)
  | [], i, e, sz, p, sealed, lastE, szEnd, h1, h2, hout => by
    rw [psGo] at hout
    simp only [Prod.mk.injEq] at hout
    obtain ⟨hs, hl, hz⟩ := hout
    subst hs
    subst hl
    subst hz
    constructor
    · intro _
      refine ⟨h2, ?_⟩
      have := dsum_dropLast_le e.data
      omega
    · intro s ss hcon
      simp at hcon
  | c :: rest, i, e, sz, p, sealed, lastE, szEnd, h1, h2, hout => by
    rw [psGo] at hout
    by_cases hsplit : rest ≠ [] ∧ sz + c.byteSize > kMaxSampleResponseSizeBytes
    · rw [if_pos hsplit] at hout
      rcases hrec : psGo n info (i + 1) rest emptyEntry 0 with ⟨recSealed, recLast, recSz⟩
      rw [hrec] at hout
      simp only [Prod.mk.injEq] at hout
      obtain ⟨hs, hl, hz⟩ := hout
      have ih := psGo_sizes n info rest (i + 1) emptyEntry 0 0 recSealed recLast recSz
        (Nat.zero_le _) rfl hrec
      constructor
      · intro h0
        rw [← hs] at h0
        simp at h0
      · intro s ss hcon
        rw [← hs] at hcon
        injection hcon with hc1 hc2
        refine ⟨?_, ?_, ?_, ?_⟩
        · rw [← hc1]
          simp only [psEntryStep, List.dropLast_concat]
          omega
        · intro t ht
          rw [← hc2] at ht
          cases hrs : recSealed with
          | nil =>
            rw [hrs] at ht
            simp at ht
          | cons rh rt =>
            rw [hrs] at ht
            obtain ⟨hb1, hb2, _, _⟩ := ih.2 rh rt hrs
            rcases List.mem_cons.1 ht with ht | ht
            · subst ht
              omega
            · exact hb2 t ht
        · rw [← hl, ← hz]
          cases hrs : recSealed with
          | nil =>
            obtain ⟨hz2, _⟩ := ih.1 hrs
            omega
          | cons rh rt =>
            exact (ih.2 rh rt hrs).2.2.1
        · rw [← hl]
          cases hrs : recSealed with
          | nil =>
            obtain ⟨_, hb⟩ := ih.1 hrs
            omega
          | cons rh rt =>
            exact (ih.2 rh rt hrs).2.2.2
    · rw [if_neg hsplit] at hout
      cases hre : rest with
      | nil =>
        subst hre
        rw [psGo] at hout
        simp only [Prod.mk.injEq] at hout
        obtain ⟨hs, hl, hz⟩ := hout
        subst hs
        subst hl
        subst hz
        constructor
        · intro _
          constructor
          · simp only [psEntryStep]
            rw [dsum_append, dsum_singleton]
            omega
          · simp only [psEntryStep, List.dropLast_concat]
            omega
        · intro s ss hcon
          simp at hcon
      | cons x xs =>
        subst hre
        have hle : sz + c.byteSize ≤ kMaxSampleResponseSizeBytes := by
          rcases not_and_or.1 hsplit with h | h
          · simp at h
          · omega
        have ih := psGo_sizes n info (x :: xs) (i + 1) (psEntryStep n info i e c)
          (sz + c.byteSize) p sealed lastE szEnd hle
          (by simp only [psEntryStep]; rw [dsum_append, dsum_singleton]; omega) hout
        exact ih

theorem respChunks_addTableItem (ref : Nat) (r : SampleStreamResponseCtx) :
    respChunks (addTableItem ref r) = respChunks r := rfl

theorem respChunks_append_entry (r : SampleStreamResponseCtx) (e : SampleEntry) :
    respChunks { r with entries := r.entries ++ [e] } = respChunks r ++ e.data := by
  simp [respChunks]

theorem respChunks_sealedResp (e : SampleEntry) : respChunks (sealedResp e) = e.data := by
  simp [respChunks, sealedResp]

theorem getLastD_append_cons_concat {α : Type _} (l₁ : List α) (x : α) (l₂ : List α)
    (z d : α) : (l₁ ++ (x :: (l₂ ++ [z]))).getLastD d = z := by
  rw [show l₁ ++ (x :: (l₂ ++ [z])) = (l₁ ++ (x :: l₂)) ++ [z] by simp]
  exact getLastD_concat _ _ _

theorem assemble_qInv (others : List SampleStreamResponseCtx)
    (cur : SampleStreamResponseCtx) (sealed : List SampleEntry) (lastE : SampleEntry)
    (szE : Nat) (ref : Nat) (p : Nat)
    (hothers : ∀ r ∈ others, respOk r)
    (hp : p = dsum (respChunks cur))
    (hnil : sealed = [] → szE = p + dsum lastE.data ∧
      p + dsum lastE.data.dropLast ≤ kMaxSampleResponseSizeBytes)
    (hcons : ∀ s ss, sealed = s :: ss →
      p + dsum s.data.dropLast ≤ kMaxSampleResponseSizeBytes ∧
      (∀ t ∈ ss, dsum t.data.dropLast ≤ kMaxSampleResponseSizeBytes) ∧
      szE = dsum lastE.data ∧
      dsum lastE.data.dropLast ≤ kMaxSampleResponseSizeBytes) :
    qInv { responses := others ++ assemble cur sealed lastE ref, curSize := szE } := by
  cases sealed with
  | nil =>
    obtain ⟨h1, h2⟩ := hnil rfl
    constructor
    · intro r hr
      simp only [assemble] at hr
      rcases List.mem_append.1 hr with hr | hr
      · exact hothers r hr
      · rw [List.mem_singleton] at hr
        subst hr
        show dsum (respChunks _).dropLast ≤ _
        rw [respChunks_addTableItem, respChunks_append_entry]
        have h3 := dsum_dropLast_append (respChunks cur) lastE.data
        omega
    · show szE = _
      simp only [assemble]
      rw [getLastD_concat, respChunks_addTableItem, respChunks_append_entry, dsum_append]
      omega
  | cons s ss =>
    obtain ⟨hb1, hb2, hb3, hb4⟩ := hcons s ss rfl
    constructor
    · intro r hr
      simp only [assemble] at hr
      rcases List.mem_append.1 hr with hr | hr
      · exact hothers r hr
      · rcases List.mem_cons.1 hr with hr | hr
        · subst hr
          show dsum (respChunks _).dropLast ≤ _
          rw [respChunks_append_entry]
          have h3 := dsum_dropLast_append (respChunks cur) s.data
          omega
        · rcases List.mem_append.1 hr with hr | hr
          · rw [List.mem_map] at hr
            obtain ⟨t, ht, rfl⟩ := hr
            show dsum (respChunks _).dropLast ≤ _
            rw [respChunks_sealedResp]
            exact hb2 t ht
          · rw [List.mem_singleton] at hr
            subst hr
            show dsum (respChunks _).dropLast ≤ _
            rw [respChunks_addTableItem, respChunks_sealedResp]
            exact hb4
    · show szE = _
      simp only [assemble]
      rw [getLastD_append_cons_concat, respChunks_addTableItem, respChunks_sealedResp]
      exact hb3

/-- C2 (amended): the 1 MiB cap is checked only before a chunk is
appended, so a response may exceed 1 MiB by exactly its final chunk
(even when no single chunk exceeds 1 MiB).  The invariant the code
maintains is: every buffered response's chunk payload *excluding its
final chunk* is at most `kMaxSampleResponseSizeBytes`, and
`current_response_size_bytes_` tracks the payload of the response being
built; `ProcessSample` preserves this from the initial state. -/
theorem sample_response_size_invariant :
    qInv { responses := [], curSize := 0 } ∧
    ∀ (sample : SampledItem) (wif : Bool) (st : SampleQState),
      qInv st → qInv (processSample sample wif st) := by
  constructor
  · exact ⟨fun r hr => by simp at hr, rfl⟩
  · intro sample wif st hInv
    obtain ⟨hall, hcur⟩ := hInv
    by_cases hf : psFresh wif st = true
    · rcases hout : psGo sample.ref.chunks.length (infoOf sample) 0 sample.ref.chunks
        emptyEntry 0 with ⟨sealed, lastE, szE⟩
      have hps : processSample sample wif st =
          { responses :=
              st.responses ++ assemble emptyResponseCtx sealed lastE sample.ref.key,
            curSize := szE } := by
        simp only [processSample, hf, if_true, hout]
      rw [hps]
      have hsz := psGo_sizes sample.ref.chunks.length (infoOf sample) sample.ref.chunks 0
        emptyEntry 0 0 sealed lastE szE (Nat.zero_le _) rfl hout
      exact assemble_qInv st.responses emptyResponseCtx sealed lastE szE sample.ref.key 0
        hall rfl hsz.1 hsz.2
    · have hf' : psFresh wif st = false := by
        cases hpf : psFresh wif st
        · rfl
        · exact absurd hpf hf
      have hle : st.curSize ≤ kMaxSampleResponseSizeBytes := by
        by_contra hgt
        apply hf
        unfold psFresh
        have hd : decide (st.curSize > kMaxSampleResponseSizeBytes) = true := by
          simp only [decide_eq_true_eq]
          omega
        rw [hd]
        simp
      have hemp : st.responses ≠ [] := by
        intro h0
        apply hf
        unfold psFresh
        rw [h0]
        simp
      rcases hout : psGo sample.ref.chunks.length (infoOf sample) 0 sample.ref.chunks
        emptyEntry st.curSize with ⟨sealed, lastE, szE⟩
      have hps : processSample sample wif st =
          { responses := st.responses.dropLast ++
              assemble (st.responses.getLastD emptyResponseCtx) sealed lastE
                sample.ref.key,
            curSize := szE } := by
        simp only [processSample, hf', Bool.false_eq_true, if_false, hout]
      rw [hps]
      have hsz := psGo_sizes sample.ref.chunks.length (infoOf sample) sample.ref.chunks 0
        emptyEntry st.curSize (dsum (respChunks (st.responses.getLastD emptyResponseCtx)))
        sealed lastE szE hle (by rw [hcur]; simp [dsum, emptyEntry]) hout
      refine assemble_qInv st.responses.dropLast
        (st.responses.getLastD emptyResponseCtx) sealed lastE szE sample.ref.key
        (dsum (respChunks (st.responses.getLastD emptyResponseCtx)))
        ?_ rfl hsz.1 hsz.2
      intro r hr
      exact hall r ((List.dropLast_sublist st.responses).subset hr)

/-- Witness for C2 (amended): the invariant applied to packing the
two-600-KiB item into an empty queue. -/
theorem sample_response_size_invariant_witness :
    qInv (processSample itemTwo600KiB false { responses := [], curSize := 0 }) :=
  sample_response_size_invariant.2 itemTwo600KiB false { responses := [], curSize := 0 }
    ⟨fun r hr => absurd hr (List.not_mem_nil r), rfl⟩

theorem flatten_map_singleton {α : Type _} : ∀ (l : List α),
    (l.map (fun t => [t])).flatten = l
  | [] => rfl
  | a :: l => by simp [flatten_map_singleton l]

theorem allEntries_append (rs1 rs2 : List SampleStreamResponseCtx) :
    allEntries (rs1 ++ rs2) = allEntries rs1 ++ allEntries rs2 := by
  simp [allEntries]

theorem allEntries_assemble (others : List SampleStreamResponseCtx)
    (cur : SampleStreamResponseCtx) (sealed : List SampleEntry) (lastE : SampleEntry)
    (ref : Nat) :
    allEntries (others ++ assemble cur sealed lastE ref)
      = (allEntries others ++ cur.entries) ++ (sealed ++ [lastE]) := by
  cases sealed with
  | nil => simp [assemble, allEntries, addTableItem]
  | cons s ss =>
    simp only [assemble, allEntries, addTableItem, List.map_append, List.map_cons,
      List.map_nil, List.flatten_append, List.flatten_cons, List.flatten_nil,
      List.map_map]
    have hcomp : ((fun r : SampleStreamResponseCtx => r.entries) ∘ sealedResp)
        = fun t => [t] := by
      funext t
      simp [sealedResp]
    rw [hcomp, flatten_map_singleton]
    simp [sealedResp]

theorem getLastD_eq_getLast_of_ne_nil {α : Type _} (l : List α) (d : α) (h : l ≠ []) :
    l.getLastD d = l.getLast h := by
  cases l with
  | nil => exact absurd rfl h
  | cons a l' =>
    rw [List.getLastD_eq_getLast?, List.getLast?_eq_getLast (a :: l') (by simp)]
    rfl

theorem allEntries_dropLast_getLastD (rs : List SampleStreamResponseCtx) (h : rs ≠ []) :
    allEntries rs.dropLast ++ (rs.getLastD emptyResponseCtx).entries = allEntries rs := by
  conv_rhs => rw [← List.dropLast_append_getLast h]
  rw [allEntries_append, getLastD_eq_getLast_of_ne_nil rs _ h]
  simp [allEntries]

theorem newEntries_facts (sample : SampledItem) (sealed : List SampleEntry)
    (lastE : SampleEntry) (szE sz0 : Nat)
    (hout : psGo sample.ref.chunks.length (infoOf sample) 0 sample.ref.chunks emptyEntry
      sz0 = (sealed, lastE, szE)) :
    ((sealed ++ [lastE]).map (fun e => e.data)).flatten = sample.ref.chunks ∧
    (sample.ref.chunks ≠ [] →
      ((sealed ++ [lastE]).headD emptyEntry).info = some (infoOf sample)) ∧
    (∀ t ∈ (sealed ++ [lastE]).tail, t.info = none) ∧
    (∀ t ∈ sealed, t.end_of_sequence = false) ∧
    (sample.ref.chunks ≠ [] → lastE.end_of_sequence = true) := by
  have hch := psGo_chunks sample.ref.chunks.length (infoOf sample) sample.ref.chunks 0
    emptyEntry sz0
  rw [hout] at hch
  have hinfo := psGo_info sample.ref.chunks.length (infoOf sample) sample.ref.chunks 0
    emptyEntry sz0
  rw [hout] at hinfo
  have heos := psGo_eos sample.ref.chunks.length (infoOf sample) sample.ref.chunks 0
    emptyEntry sz0 (by simp)
  rw [hout] at heos
  refine ⟨?_, ?_, hinfo.2, heos.1, heos.2.1⟩
  · rw [List.map_append, List.flatten_append]
    simp only [List.map_cons, List.map_nil, List.flatten_cons, List.flatten_nil,
      List.append_nil]
    rw [hch]
    rfl
  · intro hne
    rw [hinfo.1, if_pos ⟨rfl, hne⟩]

/-- C8 (amended): each entry of a sample response carries *one or more*
chunk payloads in its repeated `data` field — all chunks of an item that
fall into the same response share one entry; a new entry begins exactly
when a size-limit split starts a new response.  The new entries appended
for one sampled item extend the buffered entry stream, reproduce the
item's chunks in order, carry the info block exactly on the item's
first entry (when the item has chunks), and set `end_of_sequence` on
exactly the entry holding the item's final chunk. -/
theorem sample_entries_structure (sample : SampledItem) (wif : Bool)
    (st : SampleQState) :
    allEntries (processSample sample wif st).responses
      = allEntries st.responses ++ newEntriesOf sample wif st ∧
    ((newEntriesOf sample wif st).map (fun e => e.data)).flatten = sample.ref.chunks ∧
    (sample.ref.chunks ≠ [] →
      ((newEntriesOf sample wif st).headD emptyEntry).info = some (infoOf sample)) ∧
    (∀ t ∈ (newEntriesOf sample wif st).tail, t.info = none) ∧
    (∀ t ∈ (newEntriesOf sample wif st).dropLast, t.end_of_sequence = false) ∧
    (sample.ref.chunks ≠ [] →
      ((newEntriesOf sample wif st).getLastD emptyEntry).end_of_sequence = true) := by
  by_cases hf : psFresh wif st = true
  · rcases hout : psGo sample.ref.chunks.length (infoOf sample) 0 sample.ref.chunks
      emptyEntry 0 with ⟨sealed, lastE, szE⟩
    have hNE : newEntriesOf sample wif st = sealed ++ [lastE] := by
      simp only [newEntriesOf, hf, if_true, hout]
    have hfacts := newEntries_facts sample sealed lastE szE 0 hout
    have hps : processSample sample wif st =
        { responses :=
            st.responses ++ assemble emptyResponseCtx sealed lastE sample.ref.key,
          curSize := szE } := by
      simp only [processSample, hf, if_true, hout]
    rw [hNE, hps]
    refine ⟨?_, hfacts.1, hfacts.2.1, hfacts.2.2.1, ?_, ?_⟩
    · rw [allEntries_assemble]
      simp [emptyResponseCtx]
    · rw [List.dropLast_concat]
      exact hfacts.2.2.2.1
    · rw [getLastD_concat]
      exact hfacts.2.2.2.2
  · have hf' : psFresh wif st = false := by
      cases hpf : psFresh wif st
      · rfl
      · exact absurd hpf hf
    have hemp : st.responses ≠ [] := by
      intro h0
      apply hf
      unfold psFresh
      rw [h0]
      simp
    rcases hout : psGo sample.ref.chunks.length (infoOf sample) 0 sample.ref.chunks
      emptyEntry st.curSize with ⟨sealed, lastE, szE⟩
    have hNE : newEntriesOf sample wif st = sealed ++ [lastE] := by
      simp only [newEntriesOf, hf', Bool.false_eq_true, if_false, hout]
    have hfacts := newEntries_facts sample sealed lastE szE st.curSize hout
    have hps : processSample sample wif st =
        { responses := st.responses.dropLast ++
            assemble (st.responses.getLastD emptyResponseCtx) sealed lastE
              sample.ref.key,
          curSize := szE } := by
      simp only [processSample, hf', Bool.false_eq_true, if_false, hout]
    rw [hNE, hps]
    refine ⟨?_, hfacts.1, hfacts.2.1, hfacts.2.2.1, ?_, ?_⟩
    · rw [allEntries_assemble]
      rw [allEntries_dropLast_getLastD st.responses hemp]
    · rw [List.dropLast_concat]
      exact hfacts.2.2.2.1
    · rw [getLastD_concat]
      exact hfacts.2.2.2.2

/-- Witness for C8 (amended): the entry structure of the two-small-chunk
item packed into an empty queue. -/
theorem sample_entries_structure_witness :
    itemTwoSmall.ref.chunks ≠ [] ∧
    ((newEntriesOf itemTwoSmall false { responses := [], curSize := 0 }).headD
        emptyEntry).info = some (infoOf itemTwoSmall) := by
  refine ⟨by decide, ?_⟩
  exact (sample_entries_structure itemTwoSmall false
    { responses := [], curSize := 0 }).2.2.1 (by decide)

end Reverb
